import Mathlib

/-!
Verification of the tablecn data-grid interaction engine.

A shallow embedding of the grid interaction engine (selection model,
focus/edit controller, navigation algorithm, clipboard codec, search
engine, keyboard dispatcher, interaction store) of the `tablecn`
repository, together with theorems settling the frozen claims
C1–C10 about it.

Conventions of the embedding:
* JavaScript strings are Lean `String`s; JS `Set` objects are `Finset`s
  when only membership/size matter and insertion-ordered `List`s where the
  code iterates them; JS numbers used as indices are `Int` (so that `-1`
  sentinels and `Math.max/min` clamping are represented exactly).
* Host APIs that the repository calls but does not implement
  (`JSON.parse`/`stringify`, `Number.parseFloat`, `new Date`, `new URL`,
  number-to-string coercion) are modelled by concrete executable
  definitions, restricted to the value shapes the grid codec produces;
  each such definition carries a comment naming the host API it models.
* Helpers that live in the repository's `@/lib/data-grid` module (whose
  source file is not part of the corpus) are modelled from the spec; the
  cell-key format is pinned by the inline template literal
  `${rowIndex}:${columnId}` in the clipboard module.
-/

namespace TableCn

/-! ## Digits and decimal printing (models JS number → string coercion) -/

/-- The decimal digit character for `d < 10` (models the digit characters
JavaScript emits when coercing an integer to a string). -/
def digitCh (d : Nat) : Char := Char.ofNat (48 + d)

/-- Decimal digit test (the character-class test the codec's parsers use;
equivalent to JS `/[0-9]/`). -/
def isDigitCh (c : Char) : Bool := 48 ≤ c.toNat && c.toNat ≤ 57

/-- Decode a decimal digit character; `none` on a non-digit. -/
def charToDigit (c : Char) : Option Nat :=
  if isDigitCh c then some (c.toNat - 48) else none

/-- Decimal digit expansion of a natural number, most significant digit
first (models the digits of JS `String(n)` for a nonnegative integer). -/
def natDigits (n : Nat) : List Char :=
  if n < 10 then [digitCh n]
  else natDigits (n / 10) ++ [digitCh (n % 10)]
termination_by n
decreasing_by exact Nat.div_lt_self (by omega) (by omega)

/-- Accumulating decimal decoding, used to invert `natDigits`. -/
def digitsToNat (l : List Char) : Nat :=
  l.foldl (fun a c => a * 10 + (c.toNat - 48)) 0

/-- JS `String(n)` for a nonnegative integer. -/
def jsNatToString (n : Nat) : String := ⟨natDigits n⟩

/-- JS `toLowerCase` (ASCII case mapping, the range relevant to the
codec's keyword and option comparisons). -/
def jsToLower (s : String) : String := ⟨s.data.map Char.toLower⟩

/-! ## Cell keys

Modelled from the spec: "`CellKey` is a stable string encoding of
`(rowIndex, columnId)`" — the concrete format `rowIndex:columnId` is pinned
by the template literal in the clipboard module. -/

/-- The `getCellKey` helper of `@/lib/data-grid` (modelled from the spec;
format `rowIndex:columnId` per the clipboard module's template literal). -/
def getCellKey (rowIndex : Nat) (columnId : String) : String :=
  jsNatToString rowIndex ++ ":" ++ columnId

/-! ## Core data model -/

/-- `CellPosition` from `@/types/data-grid`: a cell identified by visual
row index and stable column id. -/
structure CellPosition where
  rowIndex : Nat
  columnId : String
deriving DecidableEq, Repr

/-- JS `Array.prototype.indexOf`: index of the first occurrence, `-1` when
absent. -/
def jsIndexOf : List String → String → Int
  | [], _ => -1
  | a :: as, x =>
      if a = x then 0
      else
        let r := jsIndexOf as x
        if r = -1 then -1 else r + 1

/-! ## JS numbers

Number cells hold JS numbers; the codec prints them with `String(·)` and
re-reads them with `Number.parseFloat`.  We model the numbers held in
cells as exact decimals `mant / 10 ^ exp` in normalized form (no trailing
zero in the fractional part), on which the host's print/parse pair acts
exactly as plain decimal notation. -/

/-- An exact decimal `mant / 10 ^ exp`, modelling a JS number held in a
number cell. -/
structure JsDec where
  mant : Int
  exp : Nat
deriving DecidableEq, Repr

/-- Normalized form: a fractional part never ends in a zero digit. -/
def JsDec.wf (v : JsDec) : Bool := v.exp == 0 || v.mant % 10 != 0

/-- Strip trailing fractional zeros (the identification a JS double makes
between `12.50` and `12.5`). -/
def normDec (m : Int) : Nat → JsDec
  | 0 => ⟨m, 0⟩
  | e + 1 => if m % 10 = 0 then normDec (m / 10) e else ⟨m, e + 1⟩

/-- The sign part JS `String(·)` emits. -/
def jsSign (m : Int) : String := if m < 0 then "-" else ""

/-- JS `String(n)` for a finite decimal number: plain decimal notation
(models the host's number-to-string coercion on the in-range decimals the
grid holds). -/
def jsNumToString (v : JsDec) : String :=
  match v.exp with
  | 0 => jsSign v.mant ++ ⟨natDigits v.mant.natAbs⟩
  | e + 1 =>
    let ds := natDigits v.mant.natAbs
    let padded := List.replicate (e + 2 - ds.length) '0' ++ ds
    jsSign v.mant ++ ⟨padded.take (padded.length - (e + 1))⟩ ++ "." ++
      ⟨padded.drop (padded.length - (e + 1))⟩

/-- The whitespace class `Number.parseFloat` skips. -/
def jsWsChar (c : Char) : Bool :=
  c.toNat = 32 || c.toNat = 9 || c.toNat = 10 || c.toNat = 13

/-- Optional leading sign of a `parseFloat` input. -/
def stripSign (cs : List Char) : Bool × List Char :=
  if cs.head? = some '-' then (true, cs.tail)
  else if cs.head? = some '+' then (false, cs.tail)
  else (false, cs)

/-- Fractional digits after the integer part of a `parseFloat` input. -/
def fracDigits (r : List Char) : List Char :=
  if r.head? = some '.' then r.tail.takeWhile isDigitCh else []

/-- Assemble the `parseFloat` result from sign, integer digits and
fractional digits; no digits at all means `NaN`. -/
def parseDigits (neg : Bool) (a b : List Char) : Option JsDec :=
  if a.length + b.length = 0 then none
  else
    some (normDec
      (if neg then -(digitsToNat (a ++ b) : Int) else (digitsToNat (a ++ b) : Int))
      b.length)

/-- `parseFloat` after whitespace/sign stripping. -/
def parseAfterSign (p : Bool × List Char) : Option JsDec :=
  parseDigits p.1 (p.2.takeWhile isDigitCh) (fracDigits (p.2.dropWhile isDigitCh))

/-- `Number.parseFloat` (models the host API, restricted to the plain
decimal notation the serializer emits; `none` stands for `NaN`; trailing
junk is ignored as the host does). -/
def jsParseFloat (s : String) : Option JsDec :=
  parseAfterSign (stripSign (s.data.dropWhile jsWsChar))

/-! ## JS dates

A `Date` held in a date cell is modelled by its civil UTC components —
the only view of it the codec uses (`toISOString` when serializing,
`new Date(text)` plus a `getTime()` NaN-check when pasting). -/

/-- The civil UTC components of a JS `Date`. -/
structure JsDate where
  year : Nat
  month : Nat
  day : Nat
  hour : Nat
  minute : Nat
  second : Nat
  milli : Nat
deriving DecidableEq, Repr

/-- Gregorian leap-year rule. -/
def isLeapYear (y : Nat) : Bool :=
  (y % 4 == 0 && y % 100 != 0) || y % 400 == 0

/-- Days in a Gregorian month (month is 1-based). -/
def daysInMonth (y m : Nat) : Nat :=
  if m = 2 then (if isLeapYear y then 29 else 28)
  else if m = 4 ∨ m = 6 ∨ m = 9 ∨ m = 11 then 30
  else 31

/-- A valid civil date-time within the four-digit-year range that
`toISOString` prints without an expanded year. -/
def JsDate.wf (t : JsDate) : Bool :=
  t.year ≤ 9999 && 1 ≤ t.month && t.month ≤ 12 &&
  1 ≤ t.day && t.day ≤ daysInMonth t.year t.month &&
  t.hour ≤ 23 && t.minute ≤ 59 && t.second ≤ 59 && t.milli ≤ 999

/-- Two-digit zero-padded decimal (digits of `toISOString` fields). -/
def pad2 (n : Nat) : List Char := [digitCh (n / 10 % 10), digitCh (n % 10)]

/-- Three-digit zero-padded decimal (milliseconds of `toISOString`). -/
def pad3 (n : Nat) : List Char :=
  [digitCh (n / 100 % 10), digitCh (n / 10 % 10), digitCh (n % 10)]

/-- Four-digit zero-padded decimal (year of `toISOString`). -/
def pad4 (n : Nat) : List Char :=
  [digitCh (n / 1000 % 10), digitCh (n / 100 % 10), digitCh (n / 10 % 10),
   digitCh (n % 10)]

/-- `Date.prototype.toISOString` (models the host API for in-range dates):
`YYYY-MM-DDTHH:mm:ss.sssZ`. -/
def isoFormat (t : JsDate) : String :=
  ⟨pad4 t.year ++ '-' :: pad2 t.month ++ '-' :: pad2 t.day ++ 'T' :: pad2 t.hour ++
    ':' :: pad2 t.minute ++ ':' :: pad2 t.second ++ '.' :: pad3 t.milli ++ ['Z']⟩

/-- Combine two decoded digits. -/
def d2v (a b : Char) : Option Nat :=
  match charToDigit a, charToDigit b with
  | some x, some y => some (x * 10 + y)
  | _, _ => none

/-- Combine three decoded digits. -/
def d3v (a b c : Char) : Option Nat :=
  match charToDigit a, charToDigit b, charToDigit c with
  | some x, some y, some z => some (x * 100 + y * 10 + z)
  | _, _, _ => none

/-- Combine four decoded digits. -/
def d4v (a b c d : Char) : Option Nat :=
  match charToDigit a, charToDigit b, charToDigit c, charToDigit d with
  | some x, some y, some z, some w => some (x * 1000 + y * 100 + z * 10 + w)
  | _, _, _, _ => none

/-- Civil-date validity of parsed year/month/day components (the range
check the host's ISO date parser applies). -/
def dateCompOk (y mo d : Nat) : Bool :=
  y ≤ 9999 && 1 ≤ mo && mo ≤ 12 && 1 ≤ d && d ≤ daysInMonth y mo

/-- The time-zone designator of the ECMA-262 date-time string format:
empty (local time), `Z`/`z`, or `±HH:mm` with hours 00–23 and minutes
00–59. -/
def offsetOk : List Char → Bool
  | [] => true
  | ['Z'] => true
  | ['z'] => true
  | [sgn, h1, h2, ':', m1, m2] =>
      (sgn == '+' || sgn == '-') &&
        (match d2v h1 h2, d2v m1 m2 with
         | some oh, some om => decide (oh ≤ 23) && decide (om ≤ 59)
         | _, _ => false)
  | _ => false

/-- Milliseconds read from a fractional-seconds digit run (the host
keeps the first three digits). -/
def msVal : List Char → Nat
  | [] => 0
  | [a] => (charToDigit a).getD 0 * 100
  | [a, b] => (charToDigit a).getD 0 * 100 + (charToDigit b).getD 0 * 10
  | a :: b :: c :: _ =>
      (charToDigit a).getD 0 * 100 + (charToDigit b).getD 0 * 10 +
        (charToDigit c).getD 0

/-- Final time-of-day validity: hours 00–23 with minutes/seconds 00–59,
or the format's midnight-24 (`24:00:00` with an all-zero fraction);
`fracVal` is the whole fractional digit run's value, so it is zero
exactly when every fractional digit is zero. -/
def isoFinish (y mo d h mi se ms fracVal : Nat) : Option JsDate :=
  if h ≤ 23 ∧ mi ≤ 59 ∧ se ≤ 59 then some ⟨y, mo, d, h, mi, se, ms⟩
  else if h = 24 ∧ mi = 0 ∧ se = 0 ∧ fracVal = 0 then
    some ⟨y, mo, d, 24, 0, 0, 0⟩
  else none

/-- After `THH:mm`: optional `:ss`, optional fractional seconds (a dot
with at least one digit, any length), then the time-zone designator. -/
def isoParseSec (y mo d h mi : Nat) : List Char → Option JsDate
  | ':' :: e1 :: e2 :: rest =>
      (match d2v e1 e2 with
       | some se =>
          match rest with
          | '.' :: rest2 =>
              let digs := rest2.takeWhile isDigitCh
              let after := rest2.dropWhile isDigitCh
              if digs = [] then none
              else if offsetOk after = true then
                isoFinish y mo d h mi se (msVal digs) (digitsToNat digs)
              else none
          | _ =>
              if offsetOk rest = true then isoFinish y mo d h mi se 0 0
              else none
       | none => none)
  | rest => if offsetOk rest = true then isoFinish y mo d h mi 0 0 0 else none

/-- The optional time part: nothing (a date-only string) or
`THH:mm` followed by the seconds/fraction/offset tail. -/
def isoParseTime (y mo d : Nat) : List Char → Option JsDate
  | [] => some ⟨y, mo, d, 0, 0, 0, 0⟩
  | 'T' :: h1 :: h2 :: ':' :: i1 :: i2 :: rest =>
      (match d2v h1 h2, d2v i1 i2 with
       | some h, some mi => isoParseSec y mo d h mi rest
       | _, _ => none)
  | _ => none

/-- `new Date(text)` on the character list (models the host's date
parser over the ECMA-262 date-time string format with a full calendar
date: `YYYY-MM-DD`, optionally `THH:mm`, `:ss`, a fractional-seconds
run of any length, and a `Z`/`z` or `±HH:mm` designator — the
interchange forms every host accepts, including everything the
clipboard module's `ISO_DATE_REGEX` gate can send it. Engine-specific
legacy fallback formats (RFC 2822 dates, year-only or year-month
strings, space-separated date-times) are outside the model; the regex
gate of the text branch rejects all of those shapes. The civil
components are returned as written — time-zone conversion is not
modelled — and `none` stands for an invalid date). -/
def isoParseChars : List Char → Option JsDate
  | y1 :: y2 :: y3 :: y4 :: '-' :: o1 :: o2 :: '-' :: a1 :: a2 :: rest =>
      (match d4v y1 y2 y3 y4, d2v o1 o2, d2v a1 a2 with
       | some y, some mo, some d =>
          if dateCompOk y mo d = true then isoParseTime y mo d rest else none
       | _, _, _ => none)
  | _ => none

/-- `new Date(text)` with the `Number.isNaN(date.getTime())` validity
check folded in (`none` = invalid). -/
def jsDateParse (s : String) : Option JsDate := isoParseChars s.data

/-! ## JSON (restricted)

`JSON.parse` / `JSON.stringify` are host APIs; the codec only ever
stringifies arrays of strings (multi-select cells) and arrays of file
records (file cells), and only ever branches on parses that yield a
boolean or such an array.  The model below covers exactly those shapes. -/

/-- A file record held in a file cell.  Modelled from the spec ("JSON
array filtered to well-formed file records"): the only field the engine
reads is `name` (the default paste branch joins file names). -/
structure FileCellData where
  name : String
deriving DecidableEq, Repr

/-- The values a relevant `JSON.parse` can produce. -/
inductive JsonLite
  | jbool (b : Bool)
  | jarrS (l : List String)
  | jarrF (l : List FileCellData)
deriving DecidableEq, Repr

/-- `JSON.stringify` escaping of one string character (control characters,
which stringify would escape as `\uXXXX`, do not occur in cell option or
file-name strings). -/
def jsonEscapeChar (c : Char) : List Char :=
  if c = '"' then ['\\', '"'] else if c = '\\' then ['\\', '\\'] else [c]

/-- Body of `JSON.stringify` of a string array, after the opening `[`. -/
def strArrBody : List String → List Char
  | [] => [']']
  | s :: l => '"' :: s.data.flatMap jsonEscapeChar ++ '"' ::
      (if l = [] then [']'] else ',' :: strArrBody l)

/-- `JSON.stringify` of a string array (models the host API). -/
def jsonStringifyStrArr (l : List String) : String := ⟨'[' :: strArrBody l⟩

/-- Body of `JSON.stringify` of a file-record array, after the opening
`[`. -/
def fileArrBody : List FileCellData → List Char
  | [] => [']']
  | f :: l => '\x7b' :: '"' :: 'n' :: 'a' :: 'm' :: 'e' :: '"' :: ':' :: '"' ::
      f.name.data.flatMap jsonEscapeChar ++ '"' :: '\x7d' ::
      (if l = [] then [']'] else ',' :: fileArrBody l)

/-- `JSON.stringify` of a file-record array (models the host API). -/
def jsonStringifyFileArr (l : List FileCellData) : String := ⟨'[' :: fileArrBody l⟩

/-- JSON string-literal parser (after the opening quote); returns the
string and the rest of the input. -/
def parseJsonStr : List Char → Option (String × List Char)
  | [] => none
  | c :: rest =>
      if c = '\\' then
        match rest with
        | [] => none
        | c2 :: rest2 =>
            if c2 = '"' ∨ c2 = '\\' then
              match parseJsonStr rest2 with
              | some (s, r) => some (⟨c2 :: s.data⟩, r)
              | none => none
            else none
      else if c = '"' then some ("", rest)
      else
        match parseJsonStr rest with
        | some (s, r) => some (⟨c :: s.data⟩, r)
        | none => none

/-- Elements of a JSON string array (after the opening `[`, at least one
element); fuel bounds the number of elements. -/
def parseStrArrElems (fuel : Nat) (cs : List Char) : Option (List String × List Char) :=
  match fuel with
  | 0 => none
  | fuel + 1 =>
    match cs with
    | [] => none
    | c :: rest =>
        if c = '"' then
          match parseJsonStr rest with
          | some (s, r) =>
            match r with
            | ',' :: r2 =>
                match parseStrArrElems fuel r2 with
                | some (l, rr) => some (s :: l, rr)
                | none => none
            | ']' :: r2 => some ([s], r2)
            | _ => none
          | none => none
        else none

/-- Elements of a JSON file-record array (after the opening `[`, at least
one element). -/
def parseFileElems (fuel : Nat) (cs : List Char) :
    Option (List FileCellData × List Char) :=
  match fuel with
  | 0 => none
  | fuel + 1 =>
    match cs with
    | '\x7b' :: '"' :: 'n' :: 'a' :: 'm' :: 'e' :: '"' :: ':' :: '"' :: rest =>
        match parseJsonStr rest with
        | some (s, r) =>
          match r with
          | '\x7d' :: ',' :: r2 =>
              match parseFileElems fuel r2 with
              | some (l, rr) => some (⟨s⟩ :: l, rr)
              | none => none
          | '\x7d' :: ']' :: r2 => some ([⟨s⟩], r2)
          | _ => none
        | none => none
    | _ => none

/-- `JSON.parse` (models the host API, restricted to the shapes the grid
codec branches on: booleans, string arrays and file-record arrays;
`none` stands for a parse error — which the code catches). -/
def jsonParseLite (s : String) : Option JsonLite :=
  match s.data.dropWhile jsWsChar with
  | 't' :: 'r' :: 'u' :: 'e' :: rest =>
      if rest.all jsWsChar then some (.jbool true) else none
  | 'f' :: 'a' :: 'l' :: 's' :: 'e' :: rest =>
      if rest.all jsWsChar then some (.jbool false) else none
  | '[' :: rest =>
      match rest with
      | ']' :: r2 => if r2.all jsWsChar then some (.jarrS []) else none
      | '"' :: _ =>
          match parseStrArrElems rest.length rest with
          | some (l, r2) => if r2.all jsWsChar then some (.jarrS l) else none
          | none => none
      | '\x7b' :: _ =>
          match parseFileElems rest.length rest with
          | some (l, r2) => if r2.all jsWsChar then some (.jarrF l) else none
          | none => none
      | _ => none
  | _ => none

/-! ## Cell values, variants and the `@/lib/data-grid` helpers -/

/-- The cell variants of the clipboard codec's `switch` (`text` stands
for the default/absent variant). -/
inductive CellVariant
  | text
  | number
  | checkbox
  | date
  | select
  | multiSelect
  | file
  | url
deriving DecidableEq, Repr

/-- A JS value held in a grid cell. -/
inductive CellValue
  | vNull
  | vStr (s : String)
  | vNum (d : JsDec)
  | vBool (b : Bool)
  | vDate (t : JsDate)
  | vStrList (l : List String)
  | vFiles (l : List FileCellData)
deriving DecidableEq, Repr

/-- JS truthiness of a cell value. -/
def jsTruthy : CellValue → Bool
  | .vNull => false
  | .vStr s => !s.isEmpty
  | .vNum d => d.mant != 0
  | .vBool b => b
  | .vDate _ => true
  | .vStrList _ => true
  | .vFiles _ => true

/-- JS `String(value ?? "")` (the serializer's final fallback; the
`vDate` arm stands for the host's `Date` rendering and is unreachable in
the serializer, which intercepts dates first). -/
def jsToString : CellValue → String
  | .vNull => ""
  | .vStr s => s
  | .vNum d => jsNumToString d
  | .vBool b => if b then "true" else "false"
  | .vDate t => isoFormat t
  | .vStrList l => String.intercalate "," l
  | .vFiles l => String.intercalate "," (l.map (fun _ => "[object Object]"))

/-- `JSON.stringify(value)` for the values the serializer passes it
(models the host API). -/
def jsonStringifyValue : CellValue → String
  | .vStrList l => jsonStringifyStrArr l
  | .vFiles l => jsonStringifyFileArr l
  | .vStr s => ⟨'"' :: (s.data.flatMap jsonEscapeChar ++ ['"'])⟩
  | .vNum d => jsNumToString d
  | .vBool b => if b then "true" else "false"
  | .vNull => "null"
  | .vDate t => ⟨'"' :: ((isoFormat t).data ++ ['"'])⟩

/-- Per-cell serialization of `serializeCellsToTsv` (the body of its
per-cell `if`/`else` chain). -/
def serializeCellValue (variant : CellVariant) (value : CellValue) : String :=
  if variant = .file ∨ variant = .multiSelect then
    if jsTruthy value then jsonStringifyValue value else ""
  else
    match value with
    | .vDate t => isoFormat t
    | v => jsToString v

/-- Modelled from the spec: `matchSelectOption` of `@/lib/data-grid` —
"match against the column's option list (case-insensitive/fuzzy)", with
an exact match preferred over the first case-insensitive one. -/
def matchSelectOption (value : String) (options : List String) : Option String :=
  match options.find? (fun o => o == value) with
  | some o => some o
  | none => options.find? (fun o => jsToLower o == jsToLower value)

/-- Modelled from the spec: `getIsFileCellData` of `@/lib/data-grid` —
accepts well-formed file records; in this embedding every parsed
`FileCellData` is well-formed by construction. -/
def getIsFileCellData (_f : FileCellData) : Bool := true

/-- Modelled from the spec: `getEmptyCellValue` of `@/lib/data-grid` —
"each column's declared empty value" (the empty-text column of the
coercion table in §4.5). -/
def getEmptyCellValue : CellVariant → CellValue
  | .number => .vNull
  | .checkbox => .vBool false
  | .date => .vNull
  | .select => .vStr ""
  | .multiSelect => .vStrList []
  | .file => .vFiles []
  | .url => .vStr ""
  | .text => .vStr ""

/-- `TRUTHY_BOOLEANS` from the clipboard module. -/
def TRUTHY_BOOLEANS : List String := ["true", "1", "yes", "checked"]

/-- `VALID_BOOLEANS` from the clipboard module. -/
def VALID_BOOLEANS : List String :=
  ["true", "false", "1", "0", "yes", "no", "checked", "unchecked"]

/-- ASCII letter (the `[a-z]` class of `DOMAIN_REGEX` under its `i`
flag, and the scheme head of an absolute URL). -/
def isAlphaCh (c : Char) : Bool :=
  (65 ≤ c.toNat && c.toNat ≤ 90) || (97 ≤ c.toNat && c.toNat ≤ 122)

/-- The `[\w.-]` class of `DOMAIN_REGEX`. -/
def isWordDashDot (c : Char) : Bool :=
  isAlphaCh c || isDigitCh c || c.toNat = 95 || c.toNat = 46 || c.toNat = 45

/-- The `\S` class (non-whitespace). -/
def isNonSpace (c : Char) : Bool :=
  !(c.toNat = 32 || c.toNat = 9 || c.toNat = 10 || c.toNat = 13 ||
    c.toNat = 11 || c.toNat = 12)

/-- `DOMAIN_REGEX.test` — `/^[\w.-]+\.[a-z]{2,}(\/\S*)?$/i` — decided by
searching over the split positions (dot before the TLD, end of the TLD). -/
def domainRegexTest (s : String) : Bool :=
  let cs := s.data
  let n := cs.length
  (List.range n).any fun i =>
    decide (0 < i) &&
    ((cs.take i).all isWordDashDot) &&
    (cs.get? i == some '.') &&
    ((List.range (n + 1)).any fun j =>
      decide (i + 3 ≤ j) && decide (j ≤ n) &&
      ((cs.drop (i + 1)).take (j - (i + 1))).all isAlphaCh &&
      (match cs.drop j with
       | [] => true
       | c :: rest => c == '/' && rest.all isNonSpace))

/-- Modelled from the spec: success of `new URL(text)` — the text is an
absolute URL, i.e. a scheme `[A-Za-z][A-Za-z0-9+.-]*` followed by `:`. -/
def jsUrlCanParse (s : String) : Bool :=
  match s.data with
  | [] => false
  | c :: rest =>
      isAlphaCh c &&
        (match rest.dropWhile
            (fun d => isAlphaCh d || isDigitCh d ||
              d.toNat = 43 || d.toNat = 46 || d.toNat = 45) with
        | ':' :: _ => true
        | _ => false)

/-- `ISO_DATE_REGEX.test` — `/^\d{4}-\d{2}-\d{2}(T\d{2}:\d{2}:\d{2}.*)?$/`
(the trailing `.*` modelled as "anything", which only widens the class). -/
def isoLikeTest (s : String) : Bool :=
  match s.data with
  | [a, b, c, d, '-', e, f, '-', g, h] =>
      [a, b, c, d, e, f, g, h].all isDigitCh
  | a :: b :: c :: d :: '-' :: e :: f :: '-' :: g :: h :: 'T' ::
      i :: j :: ':' :: k :: l :: ':' :: m :: n :: _ =>
      [a, b, c, d, e, f, g, h, i, j, k, l, m, n].all isDigitCh
  | _ => false

/-- Modelled from the spec: `Date.prototype.toLocaleDateString` — a
locale- and time-zone-dependent rendering, modelled as `M/D/YYYY` of the
civil components as parsed; claim C3's provable domain never depends on
its exact output, only on the fact that a rewrite occurs. -/
def toLocaleDateString (t : JsDate) : String :=
  jsNatToString t.month ++ "/" ++ jsNatToString t.day ++ "/" ++ jsNatToString t.year

/-- The first character of a JS string (`undefined`, i.e. `none`, when
empty) — models `pastedValue[0]`. -/
def headChar (s : String) : Option Char := s.data.head?

/-- First-char sniff of the default paste branch. -/
def textHeadSniff (c : Char) : Bool :=
  c == '[' || c == '\x7b' || c == 't' || c == 'f'

/-- The result of `JSON.parse` summarization in the default paste branch
once the first character passed the sniff. -/
def textJsonParsed (pv : String) : CellValue :=
  match jsonParseLite pv with
  | some (.jarrF (f :: fs)) =>
      .vStr (String.intercalate ", " ((f :: fs).map FileCellData.name))
  | some (.jarrF []) => .vStr ""
  | some (.jarrS l) => .vStr (String.intercalate ", " l)
  | some (.jbool b) => .vStr (if b then "Checked" else "Unchecked")
  | none =>
      if jsToLower pv = "true" then .vStr "Checked"
      else if jsToLower pv = "false" then .vStr "Unchecked"
      else .vStr pv

/-- The JSON-summarizing step of the default paste branch (first-char
sniff, `JSON.parse`, and the `true`/`false` catch fallback). -/
def textJsonStep (pv : String) : CellValue :=
  match headChar pv with
  | some c => if textHeadSniff c then textJsonParsed pv else .vStr pv
  | none => .vStr pv

/-- The `default` arm of the paste coercion `switch` (plain-text
columns). -/
def textCoerce (pv : String) : CellValue :=
  if pv = "" then .vStr ""
  else if isoLikeTest pv then
    match jsDateParse pv with
    | some t => .vStr (toLocaleDateString t)
    | none => textJsonStep pv
  else textJsonStep pv

/-- Per-cell paste coercion: the `switch (cellVariant)` of
`onCellsPaste`; `none` is `shouldSkip = true`. -/
def pasteCoerce (variant : CellVariant) (options : List String) (pv : String) :
    Option CellValue :=
  match variant with
  | .number =>
      if pv = "" then some .vNull
      else
        match jsParseFloat pv with
        | none => none
        | some d => some (.vNum d)
  | .checkbox =>
      if pv = "" then some (.vBool false)
      else
        if jsToLower pv ∈ VALID_BOOLEANS then
          some (.vBool (decide (jsToLower pv ∈ TRUTHY_BOOLEANS)))
        else none
  | .date =>
      if pv = "" then some .vNull
      else
        match jsDateParse pv with
        | none => none
        | some t => some (.vDate t)
  | .select =>
      if pv = "" then some (.vStr "")
      else
        match matchSelectOption pv options with
        | some m => some (.vStr m)
        | none => none
  | .multiSelect =>
      let values : List String :=
        match jsonParseLite pv with
        | some (.jarrS l) => l
        | some (.jarrF _) => []
        | some (.jbool _) => []
        | none => if pv = "" then [] else (pv.splitOn ",").map String.trim
      let validated := values.filterMap (fun v => matchSelectOption v options)
      if 0 < values.length ∧ validated.length = 0 then none
      else some (.vStrList validated)
  | .file =>
      if pv = "" then some (.vFiles [])
      else
        match jsonParseLite pv with
        | some (.jarrF l) =>
            let validFiles := l.filter getIsFileCellData
            if 0 < l.length ∧ validFiles.length = 0 then none
            else some (.vFiles validFiles)
        | some (.jarrS []) => some (.vFiles [])
        | some (.jarrS (_ :: _)) => none
        | some (.jbool _) => none
        | none => none
  | .url =>
      if pv = "" then some (.vStr "")
      else
        match headChar pv with
        | some c =>
            if c = '[' ∨ c = '\x7b' then none
            else if jsUrlCanParse pv then some (.vStr pv)
            else if domainRegexTest pv then some (.vStr pv)
            else none
        | none => none
  | .text => some (textCoerce pv)

/-- A value conforms to its column's declared variant (the hypothesis of
the serialize/paste roundtrip property): the value has the variant's
shape, numbers/dates are normalized and in range, select values lie in
the option list, and url values pass the paste-side acceptance test. -/
def conforms (variant : CellVariant) (options : List String) : CellValue → Bool
  | .vNull => variant == .number || variant == .date
  | .vStr s =>
      match variant with
      | .text => true
      | .select => s == "" || decide (s ∈ options)
      | .url => jsUrlCanParse s || domainRegexTest s
      | _ => false
  | .vNum d => variant == .number && d.wf
  | .vBool _ => variant == .checkbox
  | .vDate t => variant == .date && t.wf
  | .vStrList l => variant == .multiSelect && l.all (fun v => decide (v ∈ options))
  | .vFiles _ => variant == .file

/-- Head-character condition under which the default paste branch leaves
a string untouched. -/
def textHeadOkChar (s : String) (c : Char) : Bool :=
  if c = '[' ∨ c = '\x7b' then false
  else if c = 't' ∨ c = 'f' then
    (jsonParseLite s).isNone && !(jsToLower s == "true") && !(jsToLower s == "false")
  else true

/-- Text the default paste branch passes through unchanged: not
date-reformatted and not summarized by the JSON sniffing step. -/
def textUntouched (s : String) : Bool :=
  (!(isoLikeTest s) || (jsDateParse s).isNone) &&
  (match headChar s with
   | some c => textHeadOkChar s c
   | none => true)

/-! ## The paste pipeline (`onCellsPaste`)

The clipboard module's `onCellsPaste`, as a function from its inputs —
props, focused cell, paste-dialog state, cut markers, clipboard text —
to the effects it performs.  Awaited host interactions are supplied as
inputs: `clipboardRead` is the result of `navigator.clipboard.readText()`
and `currentRowCount` is the table's row count as re-read after the
awaits (equal to `rowCount` whenever no row-append collaborator ran). -/

/-- One entry of a data-mutation batch (`CellUpdate` of
`@/types/data-grid`). -/
structure CellUpdate where
  rowIndex : Nat
  columnId : String
  value : CellValue
deriving DecidableEq, Repr

/-- `PasteDialogState` of `@/types/data-grid`. -/
structure PasteDialogState where
  dialogOpen : Bool
  rowsNeeded : Int
  clipboardText : String
deriving DecidableEq, Repr

/-- The `parseCellKey` helper of `@/lib/data-grid` (modelled from the
spec: the inverse of `getCellKey` on well-formed keys — digits up to the
first colon are the row index, the remainder is the column id). -/
def parseCellKey (key : String) : CellPosition :=
  { rowIndex := digitsToNat (key.data.takeWhile (fun c => c ≠ ':')),
    columnId := ⟨(key.data.dropWhile (fun c => c ≠ ':')).tail⟩ }

/-- The inputs `onCellsPaste` draws from props and the external row
model. -/
structure PasteEnv where
  readOnly : Bool
  tableMounted : Bool
  navigableColumnIds : List String
  variantOf : String → CellVariant
  optionsOf : String → List String
  hasOnRowAdd : Bool
  hasOnRowsAdd : Bool
  rowCount : Nat
  currentRowCount : Nat

/-- The store fields `onCellsPaste` reads. -/
structure PasteState where
  focusedCell : Option CellPosition
  pasteDialog : PasteDialogState
  cutCells : List String

/-- The effects `onCellsPaste` performs. -/
inductive PasteResult
  | noop
  | dialogOpened (rowsNeeded : Int) (clipboardText : String)
  | applied (updates allUpdates : List CellUpdate)
      (cellsUpdated cellsSkipped : Nat)
      (selection : Option (CellPosition × CellPosition))
      (cutCleared dialogReset : Bool)
deriving DecidableEq, Repr

/-- The inner column loop of the paste: one pasted row's cells, from
paste-column index `j` on; an entry `(targetColIndex, some u)` is a
pushed update, `(targetColIndex, none)` a skipped cell; the loop breaks
past the last navigable column and skips empty column ids. -/
def pasteCells (env : PasteEnv) (targetRow startCol : Nat) :
    List String → Nat → List (Nat × Option CellUpdate)
  | [], _ => []
  | pv :: rest, j =>
      let targetColIndex := startCol + j
      if env.navigableColumnIds.length ≤ targetColIndex then []
      else
        match env.navigableColumnIds.get? targetColIndex with
        | none => pasteCells env targetRow startCol rest (j + 1)
        | some cid =>
            if cid = "" then pasteCells env targetRow startCol rest (j + 1)
            else
              (targetColIndex,
                (pasteCoerce (env.variantOf cid) (env.optionsOf cid) pv).map
                  (fun v => ⟨targetRow, cid, v⟩)) ::
                pasteCells env targetRow startCol rest (j + 1)

/-- The outer row loop of the paste: breaks at the first target row at or
past the re-read row count. -/
def pasteRows (env : PasteEnv) (startRow startCol : Nat) :
    List (List String) → Nat → List (Nat × List (Nat × Option CellUpdate))
  | [], _ => []
  | row :: rest, i =>
      let targetRowIndex := startRow + i
      if env.currentRowCount ≤ targetRowIndex then []
      else
        (targetRowIndex, pasteCells env targetRowIndex startCol row 0) ::
          pasteRows env startRow startCol rest (i + 1)

/-- The pushed updates, in loop order. -/
def collectUpdates (rows : List (Nat × List (Nat × Option CellUpdate))) :
    List CellUpdate :=
  rows.flatMap (fun p => p.2.filterMap Prod.snd)

/-- `cellsSkipped`. -/
def countSkipped (rows : List (Nat × List (Nat × Option CellUpdate))) : Nat :=
  (rows.flatMap (fun p => p.2.filter (fun q => q.2.isNone))).length

/-- `endRowIndex`: the running `Math.max` over processed rows, seeded
with the anchor row. -/
def endRowOf (startRow : Nat)
    (rows : List (Nat × List (Nat × Option CellUpdate))) : Nat :=
  (rows.filter (fun p => !p.2.isEmpty)).foldl (fun acc p => max acc p.1) startRow

/-- `endColIndex`: the running `Math.max` over processed columns, seeded
with the anchor column index. -/
def endColOf (startCol : Nat)
    (rows : List (Nat × List (Nat × Option CellUpdate))) : Nat :=
  (rows.flatMap (fun p => p.2.map Prod.fst)).foldl max startCol

/-- The paste tail once all guards passed (rows parsed, anchor resolved):
either the overflow dialog opens, or the loops run and the batch is
assembled (cut-marked cells appended as clears). -/
def pasteOutcome (env : PasteEnv) (fc : CellPosition) (st : PasteState)
    (expandRows : Bool) (clipboardText : String)
    (pastedData : List (List String)) (startColIndex : Int) : PasteResult :=
  let startRowIndex := fc.rowIndex
  let rowsNeeded : Int := (startRowIndex : Int) + pastedData.length - env.rowCount
  if 0 < rowsNeeded ∧ expandRows = false ∧ env.hasOnRowAdd = true ∧
      st.pasteDialog.clipboardText = "" then
    .dialogOpened rowsNeeded clipboardText
  else
    let startCol := startColIndex.toNat
    let rowsOut := pasteRows env startRowIndex startCol pastedData 0
    let updates := collectUpdates rowsOut
    let cellsSkipped := countSkipped rowsOut
    if updates = [] then
      .applied [] [] 0 cellsSkipped none false st.pasteDialog.dialogOpen
    else
      let cutUpdates := st.cutCells.map (fun key =>
        let p := parseCellKey key
        CellUpdate.mk p.rowIndex p.columnId
          (getEmptyCellValue (env.variantOf p.columnId)))
      let allUpdates := updates ++ cutUpdates
      let endRowIndex := endRowOf startRowIndex rowsOut
      let endColIndex := endColOf startCol rowsOut
      let selection :=
        match env.navigableColumnIds.get? endColIndex with
        | some endColumnId =>
            some (CellPosition.mk startRowIndex fc.columnId,
              CellPosition.mk endRowIndex endColumnId)
        | none => none
      .applied updates allUpdates updates.length cellsSkipped selection
        (!st.cutCells.isEmpty) st.pasteDialog.dialogOpen

/-- JS `String.prototype.split` with a single-character separator, on
character lists: splitting the empty string gives one empty field, and
adjacent separators yield empty fields, as in JS. -/
def splitOnChar (sep : Char) : List Char → List (List Char)
  | [] => [[]]
  | c :: cs =>
      let r := splitOnChar sep cs
      if c = sep then [] :: r
      else
        match r with
        | [] => [[c]]
        | g :: gs => (c :: g) :: gs

/-- JS `s.split(sep)` for a one-character `sep`. -/
def jsSplitCh (sep : Char) (s : String) : List String :=
  (splitOnChar sep s.data).map (fun g => ⟨g⟩)

/-- `onCellsPaste` of the clipboard module. -/
def onCellsPaste (env : PasteEnv) (st : PasteState) (expandRows : Bool)
    (clipboardRead : String) : PasteResult :=
  if env.readOnly then .noop
  else
    match st.focusedCell with
    | none => .noop
    | some fc =>
        if env.tableMounted = false then .noop
        else
          let clipboardText :=
            if st.pasteDialog.clipboardText ≠ "" then st.pasteDialog.clipboardText
            else clipboardRead
          if clipboardText = "" then .noop
          else
            let pastedData :=
              ((jsSplitCh '\n' clipboardText).filter
                (fun r => decide (0 < r.length))).map (fun r => jsSplitCh '\t' r)
            let startColIndex := jsIndexOf env.navigableColumnIds fc.columnId
            if startColIndex = -1 then .noop
            else pasteOutcome env fc st expandRows clipboardText pastedData
              startColIndex

/-- The updates pushed by the paste loops themselves (before cut-clears
are appended); empty when the paste delivered nothing. -/
def pastedUpdates : PasteResult → List CellUpdate
  | .applied u _ _ _ _ _ _ => u
  | _ => []

/-- The batch handed to `onDataUpdate` (empty when no update was
pushed). -/
def deliveredUpdates : PasteResult → List CellUpdate
  | .applied _ a _ _ _ _ _ => a
  | _ => []

/-- The environment of the C1 counterexample: one text column `a`, one
row, no row-append collaborators. -/
def pasteEnvA : PasteEnv :=
  ⟨false, true, ["a"], fun _ => CellVariant.text, fun _ => [], false, false, 1, 1⟩

/-- The store state of the C1 counterexample: cell `(0, a)` focused, no
pending dialog, no cut cells. -/
def pasteStA : PasteState := ⟨some ⟨0, "a"⟩, ⟨false, 0, ""⟩, []⟩

/-- Environment with a single checkbox column `a` and one row, no
row-append collaborators. -/
def pasteEnvC : PasteEnv :=
  ⟨false, true, ["a"], fun _ => CellVariant.checkbox, fun _ => [], false, false, 1, 1⟩

/-! ## Range selection (part_005) -/

/-- JS array indexing `columnIds[colIndex]`: a negative or out-of-range
index yields `undefined`, modelled as the falsy `""`. -/
def jsGetStr (l : List String) (i : Int) : String :=
  if h : 0 ≤ i ∧ i.toNat < l.length then l.get ⟨i.toNat, h.2⟩ else ""

/-- The `selectionState` slice written by `selectRange`: the selected
cell-key set, the raw anchor and focus, and the drag flag. -/
structure SelectionState where
  selectedCells : Finset String
  rangeStart : CellPosition
  rangeEnd : CellPosition
  isSelecting : Bool

/-- `selectRange` of the selection module: the inclusive rectangle of
cell keys between the two endpoints, skipping falsy column ids, stored
together with the raw `start`/`end` pair. -/
def selectRange (columnIds : List String) (start finish : CellPosition)
    (isSelecting : Bool) : SelectionState :=
  let startColIndex := jsIndexOf columnIds start.columnId
  let endColIndex := jsIndexOf columnIds finish.columnId
  let minRow := min start.rowIndex finish.rowIndex
  let maxRow := max start.rowIndex finish.rowIndex
  let minCol := min startColIndex endColIndex
  let maxCol := max startColIndex endColIndex
  let selectedCells :=
    (Finset.Icc minRow maxRow).biUnion (fun r =>
      ((Finset.Icc minCol maxCol).filter
        (fun c => jsGetStr columnIds c ≠ "")).image
        (fun c => getCellKey r (jsGetStr columnIds c)))
  ⟨selectedCells, start, finish, isSelecting⟩

/-- Column list of the C2 witness. -/
def colsW : List String := ["a", "b"]

/-- Anchor of the C2 witness. -/
def cellW1 : CellPosition := ⟨0, "a"⟩

/-- Focus of the C2 witness. -/
def cellW2 : CellPosition := ⟨1, "b"⟩

/-! ## Cell navigation (part_007) -/

/-- `NavigationDirection` from `@/types/data-grid`. -/
inductive NavDirection where
  | up
  | down
  | left
  | right
  | home
  | «end»
  | «ctrl+home»
  | «ctrl+end»
  | «ctrl+up»
  | «ctrl+down»
  | pageup
  | pagedown
  | pageleft
  | pageright
deriving DecidableEq, Repr

/-- The context `navigateCell` reads: navigable column order, layout
direction, current row count, and the virtualizer's visible item count
when a row virtualizer is mounted. -/
structure NavEnv where
  navigableColumnIds : List String
  rtl : Bool
  rowCount : Nat
  virtualPageSize : Option Nat

/-- `pageSize` of the page moves: the virtualizer's visible range length
when present, else the constant 10. -/
def pageSizeOf (env : NavEnv) : Nat :=
  env.virtualPageSize.getD 10

/-- The previous-column branch of `navigateCell`: step to the column
before the current one when it exists and is truthy. -/
def navPrev (env : NavEnv) (columnId : String) : String :=
  let ci := jsIndexOf env.navigableColumnIds columnId
  if 0 < ci then
    let prevColumnId := jsGetStr env.navigableColumnIds (ci - 1)
    if prevColumnId ≠ "" then prevColumnId else columnId
  else columnId

/-- The next-column branch of `navigateCell`. -/
def navNext (env : NavEnv) (columnId : String) : String :=
  let ci := jsIndexOf env.navigableColumnIds columnId
  if ci < (env.navigableColumnIds.length : Int) - 1 then
    let nextColumnId := jsGetStr env.navigableColumnIds (ci + 1)
    if nextColumnId ≠ "" then nextColumnId else columnId
  else columnId

/-- The `home` column branch of `navigateCell`. -/
def navHome (env : NavEnv) (columnId : String) : String :=
  if 0 < env.navigableColumnIds.length then
    env.navigableColumnIds.headD columnId
  else columnId

/-- The `end` column branch of `navigateCell`. -/
def navEnd (env : NavEnv) (columnId : String) : String :=
  if 0 < env.navigableColumnIds.length then
    env.navigableColumnIds.getLastD columnId
  else columnId

/-- The `pageleft` column branch of `navigateCell`. -/
def navPageLeft (env : NavEnv) (columnId : String) : String :=
  let ci := jsIndexOf env.navigableColumnIds columnId
  if 0 < ci then
    let targetIndex := max 0 (ci - 5)
    let targetColumnId := jsGetStr env.navigableColumnIds targetIndex
    if targetColumnId ≠ "" then targetColumnId else columnId
  else columnId

/-- The `pageright` column branch of `navigateCell`. -/
def navPageRight (env : NavEnv) (columnId : String) : String :=
  let ci := jsIndexOf env.navigableColumnIds columnId
  if ci < (env.navigableColumnIds.length : Int) - 1 then
    let targetIndex := min ((env.navigableColumnIds.length : Int) - 1) (ci + 5)
    let targetColumnId := jsGetStr env.navigableColumnIds targetIndex
    if targetColumnId ≠ "" then targetColumnId else columnId
  else columnId

/-- The `(newRowIndex, newColumnId)` computed by `navigateCell`'s
switch, starting from the focused cell. Row arithmetic is JS number
arithmetic, so the row component is an integer. -/
def navigateTarget (env : NavEnv) (rowIndex : Nat) (columnId : String) :
    NavDirection → Int × String
  | .up => (max 0 ((rowIndex : Int) - 1), columnId)
  | .down => (min ((env.rowCount : Int) - 1) ((rowIndex : Int) + 1), columnId)
  | .left =>
      ((rowIndex : Int),
        if env.rtl = true then navNext env columnId else navPrev env columnId)
  | .right =>
      ((rowIndex : Int),
        if env.rtl = true then navPrev env columnId else navNext env columnId)
  | .home => ((rowIndex : Int), navHome env columnId)
  | .«end» => ((rowIndex : Int), navEnd env columnId)
  | .«ctrl+home» => (0, navHome env columnId)
  | .«ctrl+end» => (max 0 ((env.rowCount : Int) - 1), navEnd env columnId)
  | .«ctrl+up» => (0, columnId)
  | .«ctrl+down» => (max 0 ((env.rowCount : Int) - 1), columnId)
  | .pageup => (max 0 ((rowIndex : Int) - pageSizeOf env), columnId)
  | .pagedown =>
      (min ((env.rowCount : Int) - 1) ((rowIndex : Int) + pageSizeOf env),
        columnId)
  | .pageleft => ((rowIndex : Int), navPageLeft env columnId)
  | .pageright => ((rowIndex : Int), navPageRight env columnId)

/-- The guarded tail of `navigateCell`: `focusCell` and the scroll
request run only when the target differs from the focused cell; `none`
means the whole call was a no-op. -/
def navigateCellEffect (env : NavEnv) (rowIndex : Nat) (columnId : String)
    (d : NavDirection) : Option (Int × String) :=
  let t := navigateTarget env rowIndex columnId d
  if t.1 ≠ (rowIndex : Int) ∨ t.2 ≠ columnId then some t else none

/-- Navigation environment of the C9/C10 witnesses: two columns, two
rows, left-to-right, no virtualizer. -/
def navEnvW : NavEnv := ⟨["a", "b"], false, 2, none⟩

/-! ## Interaction store (use-data-grid-store.ts) -/

/-- The keys of `DataGridState`. -/
inductive StateKey where
  | sorting
  | columnFilters
  | rowHeight
  | rowSelection
  | selectionState
  | focusedCell
  | editingCell
  | cutCells
  | contextMenu
  | searchQuery
  | searchMatches
  | matchIndex
  | searchOpen
  | lastClickedRowIndex
  | pasteDialog
deriving DecidableEq, Repr

/-- The store closure's observable state: the field map (JS values
modelled by identity tokens, so `Object.is` is token equality), the
`isBatching` and `pendingNotification` flags, and the number of
micro-tasks queued so far. -/
structure StoreModel where
  state : StateKey → Nat
  isBatching : Bool
  pendingNotification : Bool
  queuedTasks : Nat

/-- `setState` of the store: bail out on `Object.is` equality, otherwise
replace the one field; inside a batch only mark the pending flag, and
outside a batch queue a deferred notification only when none is
pending. -/
def setState (m : StoreModel) (key : StateKey) (value : Nat) : StoreModel :=
  if m.state key = value then m
  else
    let st := fun k => if k = key then value else m.state k
    if m.isBatching = true then ⟨st, m.isBatching, true, m.queuedTasks⟩
    else if m.pendingNotification = false then
      ⟨st, m.isBatching, true, m.queuedTasks + 1⟩
    else ⟨st, m.isBatching, m.pendingNotification, m.queuedTasks⟩

/-- The store of the C7 witness: all fields at token 0, idle flags. -/
def storeW : StoreModel := ⟨fun _ => 0, false, false, 0⟩

/-! ## Search (use-data-grid-search.ts) -/

/-- Whether the character list `s` starts with `pat`. -/
def startsWithChars : List Char → List Char → Bool
  | _, [] => true
  | [], _ :: _ => false
  | a :: as, b :: bs => a = b && startsWithChars as bs

/-- Whether `pat` occurs contiguously in `s`. -/
def containsChars (pat : List Char) : List Char → Bool
  | [] => startsWithChars [] pat
  | c :: t => startsWithChars (c :: t) pat || containsChars pat t

/-- JS `s.includes(sub)`. -/
def jsIncludes (s sub : String) : Bool :=
  containsChars sub.data s.data

/-- The visible grid `onSearch` scans: the column id order and, per
visible row, the cell lookup (a missing cell is skipped). -/
structure SearchEnv where
  columnIds : List String
  rows : List (String → Option CellValue)

/-- The inner loop body of `onSearch`: look the cell up, string-coerce
its value (`String(value ?? "")`, lower-cased) and keep the position on
a substring hit. -/
def searchCellMatch (lowerQuery : String) (row : String → Option CellValue)
    (rowIndex : Nat) (columnId : String) : Option CellPosition :=
  match row columnId with
  | none => none
  | some v =>
      if jsIncludes (jsToLower (jsToString v)) lowerQuery then
        some ⟨rowIndex, columnId⟩
      else none

/-- `onSearch` of the search module: the recorded match list and the
`matchIndex` written alongside it. -/
def onSearch (env : SearchEnv) (query : String) : List CellPosition × Int :=
  if query.data.all jsWsChar then ([], -1)
  else
    let lowerQuery := jsToLower query
    let found := (List.range env.rows.length).flatMap (fun rowIndex =>
      match env.rows.get? rowIndex with
      | none => []
      | some row =>
          env.columnIds.filterMap (searchCellMatch lowerQuery row rowIndex))
    (found, if 0 < found.length then 0 else -1)

/-- The grid of the C8 scenario: one `name` column, rows 0–2 hold
`"bar"` and row 3 holds `"foo"`. -/
def searchEnvW : SearchEnv :=
  ⟨["name"],
    [fun _ => some (.vStr "bar"), fun _ => some (.vStr "bar"),
      fun _ => some (.vStr "bar"), fun _ => some (.vStr "foo")]⟩

/-! ## Keyboard dispatcher (part_008) -/

/-- The fields `onDataGridKeyDown` destructures from the DOM event. -/
structure KeyEvent where
  key : String
  ctrlKey : Bool
  metaKey : Bool
  shiftKey : Bool
  altKey : Bool

/-- The props and context the dispatcher consults. -/
structure DispatchEnv where
  enableSearch : Bool
  enablePaste : Bool
  readOnly : Bool
  hasOnRowsDelete : Bool
  hasOnRowAdd : Bool
  rtl : Bool
  navigableColumnIds : List String

/-- The store fields the dispatcher reads: search and edit state, the
focused cell, and the sizes of the row/cell selections and cut set. -/
structure DispatchState where
  searchOpen : Bool
  editingCell : Option CellPosition
  focusedCell : Option CellPosition
  selectedCellsCount : Nat
  rowSelectionCount : Nat
  cutCellsCount : Nat

/-- The operations the dispatcher can invoke, in invocation order. -/
inductive DGAction where
  | searchOpenChange (opened : Bool)
  | navigatePrevMatch
  | navigateNextMatch
  | rowsDelete
  | selectAll
  | cellsCopy
  | cellsCut
  | cellsPaste
  | clearCells
  | selectionClear
  | clearCutCells
  | rowAdd
  | selectRangeExtend
  | navigate (d : NavDirection)
  | blurCell
deriving DecidableEq, Repr

/-- The `switch (key)` tail of the dispatcher plus the final
`if (direction)` block: compute the direction, run the ctrl+shift
range-extension early exits, and either extend the selection or
navigate. -/
def dispatchSwitch (env : DispatchEnv) (st : DispatchState) (e : KeyEvent)
    (isCtrlPressed : Bool) : List DGAction :=
  let extendOrNavigate : NavDirection → List DGAction := fun d =>
    if e.shiftKey = true ∧ e.key ≠ "Tab" then [.selectRangeExtend]
    else
      (if 0 < st.selectedCellsCount then [.selectionClear] else []) ++
        [.navigate d]
  if e.key = "ArrowUp" then
    if e.altKey = true ∧ isCtrlPressed = false ∧ e.shiftKey = false then
      extendOrNavigate .pageup
    else if isCtrlPressed = true ∧ e.shiftKey = true then [.selectRangeExtend]
    else if isCtrlPressed = true ∧ e.shiftKey = false then
      extendOrNavigate .«ctrl+up»
    else extendOrNavigate .up
  else if e.key = "ArrowDown" then
    if e.altKey = true ∧ isCtrlPressed = false ∧ e.shiftKey = false then
      extendOrNavigate .pagedown
    else if isCtrlPressed = true ∧ e.shiftKey = true then [.selectRangeExtend]
    else if isCtrlPressed = true ∧ e.shiftKey = false then
      extendOrNavigate .«ctrl+down»
    else extendOrNavigate .down
  else if e.key = "ArrowLeft" then
    if isCtrlPressed = true ∧ e.shiftKey = true then
      let targetColumnId :=
        if env.rtl = true then env.navigableColumnIds.getLastD ""
        else env.navigableColumnIds.headD ""
      if targetColumnId ≠ "" then [.selectRangeExtend] else []
    else if isCtrlPressed = true ∧ e.shiftKey = false then
      extendOrNavigate .home
    else extendOrNavigate .left
  else if e.key = "ArrowRight" then
    if isCtrlPressed = true ∧ e.shiftKey = true then
      let targetColumnId :=
        if env.rtl = true then env.navigableColumnIds.headD ""
        else env.navigableColumnIds.getLastD ""
      if targetColumnId ≠ "" then [.selectRangeExtend] else []
    else if isCtrlPressed = true ∧ e.shiftKey = false then
      extendOrNavigate .«end»
    else extendOrNavigate .right
  else if e.key = "Home" then
    extendOrNavigate (if isCtrlPressed = true then .«ctrl+home» else .home)
  else if e.key = "End" then
    extendOrNavigate (if isCtrlPressed = true then .«ctrl+end» else .«end»)
  else if e.key = "PageUp" then
    extendOrNavigate (if e.altKey = true then .pageleft else .pageup)
  else if e.key = "PageDown" then
    extendOrNavigate (if e.altKey = true then .pageright else .pagedown)
  else if e.key = "Escape" then
    if 0 < st.selectedCellsCount ∨ 0 < st.rowSelectionCount then
      [.selectionClear]
    else [.blurCell]
  else if e.key = "Tab" then
    if env.rtl = true then
      extendOrNavigate (if e.shiftKey = true then .right else .left)
    else extendOrNavigate (if e.shiftKey = true then .left else .right)
  else []

/-- The focused-cell section of the dispatcher: the clipboard and
editing shortcuts guarded by `if (!currentState.focusedCell) return`,
falling through to the direction switch. -/
def dispatchFocused (env : DispatchEnv) (st : DispatchState) (e : KeyEvent)
    (isCtrlPressed : Bool) : List DGAction :=
  if isCtrlPressed = true ∧ e.shiftKey = false ∧ e.key = "a" then [.selectAll]
  else if isCtrlPressed = true ∧ e.shiftKey = false ∧ e.key = "c" then
    [.cellsCopy]
  else if isCtrlPressed = true ∧ e.shiftKey = false ∧ e.key = "x" ∧
      env.readOnly = false then [.cellsCut]
  else if env.enablePaste = true ∧ isCtrlPressed = true ∧
      e.shiftKey = false ∧ e.key = "v" ∧ env.readOnly = false then
    [.cellsPaste]
  else if (e.key = "Delete" ∨ e.key = "Backspace") ∧ isCtrlPressed = false ∧
      env.readOnly = false then
    [.clearCells] ++
      (if 0 < st.selectedCellsCount then [.selectionClear] else []) ++
      (if 0 < st.cutCellsCount then [.clearCutCells] else [])
  else if e.key = "Enter" ∧ e.shiftKey = true ∧ env.readOnly = false ∧
      env.hasOnRowAdd = true then [.rowAdd]
  else dispatchSwitch env st e isCtrlPressed

/-- `onDataGridKeyDown`: the keyboard dispatcher, as the ordered list of
operations it invokes for one key event. -/
def onDataGridKeyDown (env : DispatchEnv) (st : DispatchState)
    (e : KeyEvent) : List DGAction :=
  let isCtrlPressed := e.ctrlKey || e.metaKey
  if env.enableSearch = true ∧ isCtrlPressed = true ∧ e.shiftKey = false ∧
      e.key = "f" then [.searchOpenChange true]
  else if env.enableSearch = true ∧ st.searchOpen = true ∧
      st.editingCell = none then
    if e.key = "Enter" then
      if e.shiftKey = true then [.navigatePrevMatch]
      else [.navigateNextMatch]
    else if e.key = "Escape" then [.searchOpenChange false]
    else []
  else if st.editingCell ≠ none then []
  else if isCtrlPressed = true ∧ (e.key = "Backspace" ∨ e.key = "Delete") ∧
      env.readOnly = false ∧ env.hasOnRowsDelete = true then
    if 0 < st.rowSelectionCount ∨ 0 < st.selectedCellsCount ∨
        st.focusedCell ≠ none then [.rowsDelete]
    else []
  else
    match st.focusedCell with
    | none => []
    | some _ => dispatchFocused env st e isCtrlPressed

/-- The environment of the C4 counterexample: search enabled. -/
def dispatchEnvX : DispatchEnv := ⟨true, true, false, true, true, false, ["a"]⟩

/-- The state of the C4 counterexample: cell `(0, a)` being edited. -/
def dispatchStX : DispatchState :=
  ⟨false, some ⟨0, "a"⟩, some ⟨0, "a"⟩, 0, 0, 0⟩

/-! ## Focus / editing state (part_008, use-data-grid-search.ts) -/

/-- The interaction-store slice the focus and editing operations write:
focused and editing cell plus the search fields closing the search panel
resets. -/
structure GridState where
  focusedCell : Option CellPosition
  editingCell : Option CellPosition
  searchOpen : Bool
  searchQuery : String
  searchMatches : List CellPosition
  matchIndex : Int

/-- `focusCell`: focus the cell and leave edit mode. -/
def focusCell (st : GridState) (rowIndex : Nat) (columnId : String) :
    GridState :=
  ⟨some ⟨rowIndex, columnId⟩, none, st.searchOpen, st.searchQuery,
    st.searchMatches, st.matchIndex⟩

/-- `blurCell`: clear focus and edit state. -/
def blurCell (st : GridState) : GridState :=
  ⟨none, none, st.searchOpen, st.searchQuery, st.searchMatches,
    st.matchIndex⟩

/-- `onCellEditingStart`: unless read-only, focus the cell and enter
edit mode on it in one batch. -/
def onCellEditingStart (st : GridState) (readOnly : Bool) (rowIndex : Nat)
    (columnId : String) : GridState :=
  if readOnly = true then st
  else
    ⟨some ⟨rowIndex, columnId⟩, some ⟨rowIndex, columnId⟩, st.searchOpen,
      st.searchQuery, st.searchMatches, st.matchIndex⟩

/-- `onCellEditingStop`: leave edit mode; with a direction option the
edited cell is re-focused synchronously (the move-to-next-row refocus is
deferred to an animation frame, and the default branch only touches the
DOM). -/
def onCellEditingStop (st : GridState) (moveToNextRow : Bool)
    (direction : Option NavDirection) : GridState :=
  let currentEditing := st.editingCell
  let st1 : GridState :=
    ⟨st.focusedCell, none, st.searchOpen, st.searchQuery, st.searchMatches,
      st.matchIndex⟩
  if moveToNextRow = true ∧ currentEditing ≠ none then st1
  else
    match direction with
    | some _ =>
        match currentEditing with
        | some e => focusCell st1 e.rowIndex e.columnId
        | none => st1
    | none => st1

/-- The store effect of `onScrollToRow`: every store write it performs
goes through `focusCell` from its scroll-and-focus loop; when the guards
bail out or the cell never mounts, the store is untouched. -/
def onScrollToRowStep (st : GridState) (didFocus : Bool) (rowIndex : Nat)
    (columnId : String) : GridState :=
  if didFocus = true then focusCell st rowIndex columnId else st

/-- `onSearchOpenChange`: opening only flips the flag; closing resets
the search fields and, when a current match exists, moves focus to it —
without touching `editingCell`. -/
def onSearchOpenChange (st : GridState) (opened : Bool) : GridState :=
  if opened = true then
    ⟨st.focusedCell, st.editingCell, true, st.searchQuery, st.searchMatches,
      st.matchIndex⟩
  else
    let currentMatch :=
      if 0 ≤ st.matchIndex then st.searchMatches.get? st.matchIndex.toNat
      else none
    ⟨(match currentMatch with
      | some m => some m
      | none => st.focusedCell), st.editingCell, false, "", [], -1⟩

/-- The store effect of `onSearch` (search fields only). -/
def onSearchState (st : GridState) (env : SearchEnv) (query : String) :
    GridState :=
  let r := onSearch env query
  ⟨st.focusedCell, st.editingCell, st.searchOpen, st.searchQuery, r.1, r.2⟩

/-- The claimed invariant: a cell being edited is the focused cell. -/
def editFocusInv (st : GridState) : Bool :=
  match st.editingCell with
  | none => true
  | some e => st.focusedCell == some e

/-- The search environment of the C5 counterexample: one column `a`,
row 0 holds `"x"`, row 1 holds `"q!"`. -/
def searchEnvX : SearchEnv :=
  ⟨["a"], [fun _ => some (.vStr "x"), fun _ => some (.vStr "q!")]⟩

/-- The C5 counterexample state: start editing cell `(0, a)`, open the
search panel (ctrl+F fires during editing), and search for `"q"`, which
matches cell `(1, a)`. -/
def gridStX : GridState :=
  onSearchState
    (onSearchOpenChange
      (onCellEditingStart ⟨none, none, false, "", [], -1⟩ false 0 "a") true)
    searchEnvX "q"

/-! ## Theorems -/

theorem isDigitCh_iff {c : Char} :
    isDigitCh c = true ↔ 48 ≤ c.toNat ∧ c.toNat ≤ 57 := by
  simp [isDigitCh]

theorem charToDigit_digitCh {d : Nat} (h : d < 10) :
    charToDigit (digitCh d) = some d := by
  interval_cases d <;> decide

theorem digitCh_isDigit {d : Nat} (h : d < 10) : isDigitCh (digitCh d) = true := by
  interval_cases d <;> decide

theorem char_ne_of_toNat_ne {c d : Char} (h : c.toNat ≠ d.toNat) : c ≠ d :=
  fun he => h (he ▸ rfl)

theorem natDigits_ne_nil (n : Nat) : natDigits n ≠ [] := by
  rw [natDigits]
  split <;> simp

theorem natDigits_all_digit (n : Nat) : ∀ c ∈ natDigits n, isDigitCh c = true := by
  induction n using Nat.strong_induction_on with
  | _ n ih =>
    rw [natDigits]
    split
    · intro c hc
      simp only [List.mem_singleton] at hc
      subst hc
      exact digitCh_isDigit (by omega)
    · intro c hc
      rcases List.mem_append.mp hc with h | h
      · exact ih (n / 10) (Nat.div_lt_self (by omega) (by omega)) c h
      · simp only [List.mem_singleton] at h
        subst h
        exact digitCh_isDigit (Nat.mod_lt _ (by omega))

theorem digitsToNat_from (a : Nat) (l : List Char) :
    l.foldl (fun a c => a * 10 + (c.toNat - 48)) a =
      a * 10 ^ l.length + digitsToNat l := by
  induction l generalizing a with
  | nil => simp [digitsToNat]
  | cons c cs ih =>
    simp only [List.foldl_cons, digitsToNat, List.length_cons]
    rw [ih (a * 10 + (c.toNat - 48)), ih (0 * 10 + (c.toNat - 48))]
    ring

theorem digitsToNat_append (l₁ l₂ : List Char) :
    digitsToNat (l₁ ++ l₂) = digitsToNat l₁ * 10 ^ l₂.length + digitsToNat l₂ := by
  simp only [digitsToNat, List.foldl_append]
  exact digitsToNat_from _ _

theorem digitCh_toNat {d : Nat} (h : d < 10) : (digitCh d).toNat = 48 + d := by
  interval_cases d <;> decide

theorem digitsToNat_natDigits (n : Nat) : digitsToNat (natDigits n) = n := by
  induction n using Nat.strong_induction_on with
  | _ n ih =>
    rw [natDigits]
    split
    · simp [digitsToNat, digitCh_toNat (by omega : n < 10)]
    · rw [digitsToNat_append]
      rw [ih (n / 10) (Nat.div_lt_self (by omega) (by omega))]
      simp [digitsToNat, digitCh_toNat (Nat.mod_lt n (by omega) : n % 10 < 10)]
      omega

theorem natDigits_injective : Function.Injective natDigits := by
  intro a b h
  have := digitsToNat_natDigits a
  rw [h, digitsToNat_natDigits] at this
  omega

theorem natDigits_ne_colon (n : Nat) : ∀ c ∈ natDigits n, c ≠ ':' := by
  intro c hc hcolon
  have := natDigits_all_digit n c hc
  subst hcolon
  exact absurd this (by decide)

theorem append_colon_inj :
    ∀ (l₁ l₂ t₁ t₂ : List Char), (∀ c ∈ l₁, c ≠ ':') → (∀ c ∈ l₂, c ≠ ':') →
      l₁ ++ ':' :: t₁ = l₂ ++ ':' :: t₂ → l₁ = l₂ ∧ t₁ = t₂ := by
  intro l₁
  induction l₁ with
  | nil =>
    intro l₂ t₁ t₂ _ h₂ heq
    cases l₂ with
    | nil => simpa using heq
    | cons b bs =>
      simp only [List.nil_append, List.cons_append, List.cons.injEq] at heq
      exact absurd heq.1.symm (h₂ b (by simp))
  | cons a as ih =>
    intro l₂ t₁ t₂ h₁ h₂ heq
    cases l₂ with
    | nil =>
      simp only [List.cons_append, List.nil_append, List.cons.injEq] at heq
      exact absurd heq.1 (h₁ a (by simp))
    | cons b bs =>
      simp only [List.cons_append, List.cons.injEq] at heq
      obtain ⟨hab, hrest⟩ := heq
      obtain ⟨h₃, h₄⟩ := ih bs t₁ t₂ (fun c hc => h₁ c (by simp [hc]))
        (fun c hc => h₂ c (by simp [hc])) hrest
      exact ⟨by rw [hab, h₃], h₄⟩

theorem getCellKey_inj {r₁ r₂ : Nat} {c₁ c₂ : String}
    (h : getCellKey r₁ c₁ = getCellKey r₂ c₂) : r₁ = r₂ ∧ c₁ = c₂ := by
  have hdata : natDigits r₁ ++ ':' :: c₁.data = natDigits r₂ ++ ':' :: c₂.data := by
    have := congrArg String.data h
    simpa [getCellKey, jsNatToString, String.data_append] using this
  obtain ⟨hd, ht⟩ := append_colon_inj _ _ _ _ (natDigits_ne_colon r₁)
    (natDigits_ne_colon r₂) hdata
  exact ⟨natDigits_injective hd, String.ext ht⟩

theorem jsIndexOf_cons_self (x : String) (l : List String) :
    jsIndexOf (x :: l) x = 0 := by
  simp [jsIndexOf]

theorem jsIndexOf_nonneg {l : List String} {x : String} (h : x ∈ l) :
    0 ≤ jsIndexOf l x := by
  induction l with
  | nil => cases h
  | cons a as ih =>
    rw [jsIndexOf]
    by_cases hax : a = x
    · simp [hax]
    · have hx : x ∈ as := by
        rcases List.mem_cons.mp h with h' | h'
        · exact absurd h'.symm hax
        · exact h'
      have := ih hx
      simp only [hax, if_false]
      split <;> omega

theorem jsIndexOf_not_mem {l : List String} {x : String} (h : x ∉ l) :
    jsIndexOf l x = -1 := by
  induction l with
  | nil => rfl
  | cons a as ih =>
    rw [jsIndexOf]
    have hax : a ≠ x := fun he => h (he ▸ List.mem_cons_self a as)
    have hx : x ∉ as := fun hm => h (List.mem_cons_of_mem a hm)
    simp [hax, ih hx]

theorem jsIndexOf_lt_length {l : List String} {x : String} (h : x ∈ l) :
    jsIndexOf l x < l.length := by
  induction l with
  | nil => cases h
  | cons a as ih =>
    rw [jsIndexOf]
    by_cases hax : a = x
    · simp [hax]
    · have hx : x ∈ as := by
        rcases List.mem_cons.mp h with h' | h'
        · exact absurd h'.symm hax
        · exact h'
      have h1 := ih hx
      have h2 := jsIndexOf_nonneg hx
      simp only [hax, if_false, List.length_cons]
      split
      · push_cast; omega
      · push_cast; omega

theorem jsIndexOf_get {l : List String} {x : String} (h : x ∈ l) :
    l.get? (jsIndexOf l x).toNat = some x := by
  induction l with
  | nil => cases h
  | cons a as ih =>
    rw [jsIndexOf]
    by_cases hax : a = x
    · simp [hax]
    · have hx : x ∈ as := by
        rcases List.mem_cons.mp h with h' | h'
        · exact absurd h'.symm hax
        · exact h'
      have h1 := jsIndexOf_nonneg hx
      have h2 := ih hx
      simp only [hax, if_false]
      have hne : jsIndexOf as x ≠ -1 := by omega
      simp only [hne, if_false]
      have : (jsIndexOf as x + 1).toNat = (jsIndexOf as x).toNat + 1 := by omega
      rw [this]
      simpa using h2

/-- With distinct column ids, `jsIndexOf` inverts positional access. -/
theorem jsIndexOf_of_get {l : List String} (hnd : l.Nodup) {i : Nat}
    (hi : i < l.length) (hx : l.get ⟨i, hi⟩ = x) : jsIndexOf l x = i := by
  induction l generalizing i with
  | nil => cases hi
  | cons a as ih =>
    cases i with
    | zero =>
      simp only [List.get] at hx
      rw [hx] at hnd ⊢
      exact jsIndexOf_cons_self x as
    | succ j =>
      simp only [List.get] at hx
      have hj : j < as.length := by simpa using hi
      have hmem : x ∈ as := hx ▸ List.get_mem as j hj
      have hax : a ≠ x := by
        intro he
        rw [← he] at hmem
        exact (List.nodup_cons.mp hnd).1 hmem
      rw [jsIndexOf]
      have := ih (List.nodup_cons.mp hnd).2 hj hx
      have hnn := jsIndexOf_nonneg hmem
      simp only [hax, if_false, this]
      have : (j : Int) ≠ -1 := by omega
      simp only [this, if_false]
      push_cast
      ring

theorem jsWsChar_eq_false_of_digit {c : Char} (h : isDigitCh c = true) :
    jsWsChar c = false := by
  rw [isDigitCh_iff] at h
  simp only [jsWsChar, Bool.or_eq_false_iff, decide_eq_false_iff_not]
  omega

theorem dropWhile_ws_cons {c : Char} {r : List Char} (h : jsWsChar c = false) :
    (c :: r).dropWhile jsWsChar = c :: r := by
  simp [List.dropWhile_cons, h]

theorem stripSign_digit {c : Char} {r : List Char} (h : isDigitCh c = true) :
    stripSign (c :: r) = (false, c :: r) := by
  rw [isDigitCh_iff] at h
  have hm : ('-').toNat = 45 := by decide
  have hp : ('+').toNat = 43 := by decide
  have h1 : c ≠ '-' := char_ne_of_toNat_ne (by rw [hm]; omega)
  have h2 : c ≠ '+' := char_ne_of_toNat_ne (by rw [hp]; omega)
  simp [stripSign, h1, h2]

theorem stripSign_neg (r : List Char) : stripSign ('-' :: r) = (true, r) := by
  simp [stripSign]

theorem takeWhile_digits_append {xs ys : List Char}
    (hxs : ∀ c ∈ xs, isDigitCh c = true)
    (hy : ∀ h : ys ≠ [], isDigitCh (ys.head h) = false) :
    (xs ++ ys).takeWhile isDigitCh = xs ∧
      (xs ++ ys).dropWhile isDigitCh = ys := by
  induction xs with
  | nil =>
    simp only [List.nil_append]
    cases ys with
    | nil => simp
    | cons y ys' =>
      have := hy (by simp)
      simp only [List.head_cons] at this
      constructor
      · simp [List.takeWhile_cons, this]
      · simp [List.dropWhile_cons, this]
  | cons x xs' ih =>
    have hx := hxs x (by simp)
    obtain ⟨h₁, h₂⟩ := ih (fun c hc => hxs c (by simp [hc]))
    constructor
    · simp [List.takeWhile_cons, hx, h₁]
    · simp [List.dropWhile_cons, hx, h₂]

theorem digitsToNat_replicate_zero (k : Nat) (ds : List Char) :
    digitsToNat (List.replicate k '0' ++ ds) = digitsToNat ds := by
  rw [digitsToNat_append]
  have hz : digitsToNat (List.replicate k '0') = 0 := by
    induction k with
    | zero => rfl
    | succ n ih =>
      have : List.replicate (n + 1) '0' = List.replicate n '0' ++ ['0'] := by
        rw [← List.replicate_succ']
      rw [this, digitsToNat_append, ih]
      rfl
  rw [hz]
  ring_nf

theorem normDec_of_wf {m : Int} {e : Nat} (h : (JsDec.mk m e).wf = true) :
    normDec m e = ⟨m, e⟩ := by
  cases e with
  | zero => rfl
  | succ e' =>
    simp only [JsDec.wf, bne_iff_ne, ne_eq, Bool.or_eq_true, beq_iff_eq] at h
    rcases h with h | h
    · exact absurd h (by omega)
    · simp [normDec, h]

theorem fracDigits_nil : fracDigits ([] : List Char) = [] := by
  simp [fracDigits]

theorem fracDigits_cons_dot (r : List Char) :
    fracDigits ('.' :: r) = r.takeWhile isDigitCh := by
  simp [fracDigits]

theorem parseAfterSign_int (neg : Bool) (intD : List Char)
    (hint : ∀ c ∈ intD, isDigitCh c = true) (hne : intD ≠ []) :
    parseAfterSign (neg, intD) =
      some (normDec
        (if neg then -(digitsToNat intD : Int) else (digitsToNat intD : Int)) 0) := by
  obtain ⟨htake, hdrop⟩ :=
    @takeWhile_digits_append intD [] (fun c hc => hint c (by simpa using hc))
      (by simp)
  simp only [List.append_nil] at htake hdrop
  rw [parseAfterSign]
  simp only [htake, hdrop]
  rw [fracDigits_nil, parseDigits]
  have hlen : intD.length ≠ 0 := by
    cases intD with
    | nil => exact absurd rfl hne
    | cons _ _ => simp
  simp [List.append_nil, hlen]

theorem parseAfterSign_frac (neg : Bool) (intD fracD : List Char)
    (hint : ∀ c ∈ intD, isDigitCh c = true)
    (hfrac : ∀ c ∈ fracD, isDigitCh c = true)
    (hne : intD ≠ []) :
    parseAfterSign (neg, intD ++ '.' :: fracD) =
      some (normDec
        (if neg then -(digitsToNat (intD ++ fracD) : Int)
         else (digitsToNat (intD ++ fracD) : Int))
        fracD.length) := by
  obtain ⟨htake, hdrop⟩ :=
    @takeWhile_digits_append intD ('.' :: fracD) hint
      (by intro h; simp only [List.head_cons]; decide)
  rw [parseAfterSign]
  simp only [htake, hdrop]
  rw [fracDigits_cons_dot]
  have hftake : fracD.takeWhile isDigitCh = fracD := by
    obtain ⟨ht, _⟩ :=
      @takeWhile_digits_append fracD [] (fun c hc => hfrac c (by simpa using hc))
        (by simp)
    simpa using ht
  rw [hftake, parseDigits]
  have hlen : intD.length + fracD.length ≠ 0 := by
    cases intD with
    | nil => exact absurd rfl hne
    | cons _ _ => simp
  simp only [hlen, if_false]

theorem jsParseFloat_pos_body (c : Char) (cs : List Char)
    (hc : isDigitCh c = true) :
    jsParseFloat ⟨c :: cs⟩ = parseAfterSign (false, c :: cs) := by
  rw [jsParseFloat]
  show parseAfterSign (stripSign ((c :: cs).dropWhile jsWsChar)) = _
  rw [dropWhile_ws_cons (jsWsChar_eq_false_of_digit hc), stripSign_digit hc]

theorem jsParseFloat_neg_body (body : List Char) :
    jsParseFloat ⟨'-' :: body⟩ = parseAfterSign (true, body) := by
  rw [jsParseFloat]
  show parseAfterSign (stripSign (('-' :: body).dropWhile jsWsChar)) = _
  rw [dropWhile_ws_cons (by decide), stripSign_neg]

/-- `parseFloat` inverts `String(·)` on normalized finite decimals. -/
theorem jsNum_roundtrip (v : JsDec) (hwf : v.wf = true) :
    jsParseFloat (jsNumToString v) = some v := by
  obtain ⟨m, e⟩ := v
  have hdig := natDigits_all_digit m.natAbs
  have hne := natDigits_ne_nil m.natAbs
  cases e with
  | zero =>
    by_cases hm : m < 0
    · have hstr : jsNumToString ⟨m, 0⟩ = ⟨'-' :: natDigits m.natAbs⟩ := by
        apply String.ext
        show (jsSign m ++ ⟨natDigits m.natAbs⟩).data = _
        rw [jsSign, if_pos hm]
        simp [String.data_append]
      rw [hstr, jsParseFloat_neg_body _, parseAfterSign_int true _ hdig hne]
      simp only [if_true]
      rw [digitsToNat_natDigits]
      show some (normDec (-(m.natAbs : Int)) 0) = _
      rw [normDec]
      congr 2
      omega
    · have hstr : jsNumToString ⟨m, 0⟩ = ⟨natDigits m.natAbs⟩ := by
        apply String.ext
        show (jsSign m ++ ⟨natDigits m.natAbs⟩).data = _
        rw [jsSign, if_neg hm]
        simp [String.data_append]
      obtain ⟨c, cs, hcc⟩ : ∃ c cs, natDigits m.natAbs = c :: cs := by
        cases h : natDigits m.natAbs with
        | nil => exact absurd h hne
        | cons a as => exact ⟨a, as, rfl⟩
      have hc : isDigitCh c = true := hdig c (hcc ▸ List.mem_cons_self c cs)
      rw [hstr, hcc, jsParseFloat_pos_body c cs hc, ← hcc,
        parseAfterSign_int false _ hdig hne]
      simp only [Bool.false_eq_true, if_false]
      rw [digitsToNat_natDigits]
      show some (normDec ((m.natAbs : Int)) 0) = _
      rw [normDec]
      congr 2
      omega
  | succ e' =>
    have hplen : e' + 2 ≤ (List.replicate (e' + 2 - (natDigits m.natAbs).length) '0'
        ++ natDigits m.natAbs).length := by
      simp only [List.length_append, List.length_replicate]
      omega
    have hpdig : ∀ c ∈ List.replicate (e' + 2 - (natDigits m.natAbs).length) '0'
        ++ natDigits m.natAbs, isDigitCh c = true := by
      intro c hc
      rcases List.mem_append.mp hc with h | h
      · rw [List.eq_of_mem_replicate h]
        decide
      · exact hdig c h
    generalize hP : List.replicate (e' + 2 - (natDigits m.natAbs).length) '0'
        ++ natDigits m.natAbs = padded at hplen hpdig
    have hpval : digitsToNat padded = m.natAbs := by
      rw [← hP, digitsToNat_replicate_zero, digitsToNat_natDigits]
    have hintdig : ∀ c ∈ padded.take (padded.length - (e' + 1)), isDigitCh c = true :=
      fun c hc => hpdig c (List.take_subset _ padded hc)
    have hfracdig : ∀ c ∈ padded.drop (padded.length - (e' + 1)), isDigitCh c = true :=
      fun c hc => hpdig c (List.drop_subset _ padded hc)
    have hintlen : (padded.take (padded.length - (e' + 1))).length =
        padded.length - (e' + 1) := by
      rw [List.length_take]
      omega
    have hfraclen : (padded.drop (padded.length - (e' + 1))).length = e' + 1 := by
      rw [List.length_drop]
      omega
    have hintne : padded.take (padded.length - (e' + 1)) ≠ [] := by
      intro h
      rw [h] at hintlen
      simp at hintlen
      omega
    have hsplit : padded.take (padded.length - (e' + 1)) ++
        padded.drop (padded.length - (e' + 1)) = padded :=
      List.take_append_drop _ padded
    have hwf' : m % 10 ≠ 0 := by
      simp only [JsDec.wf, bne_iff_ne, ne_eq, Bool.or_eq_true, beq_iff_eq] at hwf
      rcases hwf with h | h
      · exact absurd h (by omega)
      · exact h
    by_cases hm : m < 0
    · have hstr : jsNumToString ⟨m, e' + 1⟩ =
          ⟨'-' :: (padded.take (padded.length - (e' + 1)) ++
            '.' :: padded.drop (padded.length - (e' + 1)))⟩ := by
        apply String.ext
        show (jsSign m ++ ⟨(List.replicate (e' + 2 - (natDigits m.natAbs).length) '0'
            ++ natDigits m.natAbs).take ((List.replicate
              (e' + 2 - (natDigits m.natAbs).length) '0'
            ++ natDigits m.natAbs).length - (e' + 1))⟩ ++ "." ++
          ⟨(List.replicate (e' + 2 - (natDigits m.natAbs).length) '0'
            ++ natDigits m.natAbs).drop ((List.replicate
              (e' + 2 - (natDigits m.natAbs).length) '0'
            ++ natDigits m.natAbs).length - (e' + 1))⟩).data = _
        rw [hP, jsSign, if_pos hm]
        simp [String.data_append]
      rw [hstr]
      have hbdig : ∀ c ∈ padded.take (padded.length - (e' + 1)) ++
          '.' :: padded.drop (padded.length - (e' + 1)), True := fun _ _ => trivial
      rw [jsParseFloat]
      show parseAfterSign (stripSign (('-' :: (padded.take (padded.length - (e' + 1)) ++
        '.' :: padded.drop (padded.length - (e' + 1)))).dropWhile jsWsChar)) = _
      rw [dropWhile_ws_cons (by decide), stripSign_neg,
        parseAfterSign_frac true _ _ hintdig hfracdig hintne]
      simp only [if_true]
      rw [hsplit, hpval, hfraclen]
      have hmv : -(m.natAbs : Int) = m := by omega
      rw [hmv]
      exact congrArg some (normDec_of_wf (by
        simp only [JsDec.wf, bne_iff_ne, ne_eq, Bool.or_eq_true, beq_iff_eq]
        exact Or.inr hwf'))
    · have hstr : jsNumToString ⟨m, e' + 1⟩ =
          ⟨padded.take (padded.length - (e' + 1)) ++
            '.' :: padded.drop (padded.length - (e' + 1))⟩ := by
        apply String.ext
        show (jsSign m ++ ⟨(List.replicate (e' + 2 - (natDigits m.natAbs).length) '0'
            ++ natDigits m.natAbs).take ((List.replicate
              (e' + 2 - (natDigits m.natAbs).length) '0'
            ++ natDigits m.natAbs).length - (e' + 1))⟩ ++ "." ++
          ⟨(List.replicate (e' + 2 - (natDigits m.natAbs).length) '0'
            ++ natDigits m.natAbs).drop ((List.replicate
              (e' + 2 - (natDigits m.natAbs).length) '0'
            ++ natDigits m.natAbs).length - (e' + 1))⟩).data = _
        rw [hP, jsSign, if_neg hm]
        simp [String.data_append]
      rw [hstr]
      have hbne : padded.take (padded.length - (e' + 1)) ++
          '.' :: padded.drop (padded.length - (e' + 1)) ≠ [] := by
        cases h : padded.take (padded.length - (e' + 1)) with
        | nil => exact absurd h hintne
        | cons _ _ => simp
      obtain ⟨c, cs, hcc⟩ : ∃ c cs, padded.take (padded.length - (e' + 1)) = c :: cs := by
        cases h : padded.take (padded.length - (e' + 1)) with
        | nil => exact absurd h hintne
        | cons a as => exact ⟨a, as, rfl⟩
      have hc : isDigitCh c = true := hintdig c (hcc ▸ List.mem_cons_self c cs)
      rw [hcc, List.cons_append, jsParseFloat_pos_body c _ hc, ← List.cons_append,
        ← hcc, parseAfterSign_frac false _ _ hintdig hfracdig hintne]
      simp only [Bool.false_eq_true, if_false]
      rw [hsplit, hpval, hfraclen]
      have hmv : ((m.natAbs : Int)) = m := by omega
      rw [hmv]
      exact congrArg some (normDec_of_wf (by
        simp only [JsDec.wf, bne_iff_ne, ne_eq, Bool.or_eq_true, beq_iff_eq]
        exact Or.inr hwf'))

theorem d2v_digitCh {a b : Nat} (ha : a < 10) (hb : b < 10) :
    d2v (digitCh a) (digitCh b) = some (a * 10 + b) := by
  rw [d2v, charToDigit_digitCh ha, charToDigit_digitCh hb]

theorem d3v_digitCh {a b c : Nat} (ha : a < 10) (hb : b < 10) (hc : c < 10) :
    d3v (digitCh a) (digitCh b) (digitCh c) = some (a * 100 + b * 10 + c) := by
  rw [d3v, charToDigit_digitCh ha, charToDigit_digitCh hb, charToDigit_digitCh hc]

theorem d4v_digitCh {a b c d : Nat} (ha : a < 10) (hb : b < 10) (hc : c < 10)
    (hd : d < 10) :
    d4v (digitCh a) (digitCh b) (digitCh c) (digitCh d) =
      some (a * 1000 + b * 100 + c * 10 + d) := by
  rw [d4v, charToDigit_digitCh ha, charToDigit_digitCh hb, charToDigit_digitCh hc,
    charToDigit_digitCh hd]

/-- `new Date` inverts `toISOString` on valid in-range dates. -/
theorem jsDate_roundtrip (t : JsDate) (hwf : t.wf = true) :
    jsDateParse (isoFormat t) = some t := by
  obtain ⟨y, mo, d, h, mi, sec, ms⟩ := t
  have hb := hwf
  simp only [JsDate.wf, Bool.and_eq_true, decide_eq_true_eq] at hb
  obtain ⟨⟨⟨⟨⟨⟨⟨⟨hy, hmo1⟩, hmo2⟩, hd1⟩, hd2⟩, hh⟩, hmi⟩, hsec⟩, hms⟩ := hb
  have m10 : ∀ k : Nat, k % 10 < 10 := fun k => Nat.mod_lt _ (by omega)
  rw [jsDateParse]
  show isoParseChars (pad4 y ++ '-' :: pad2 mo ++ '-' :: pad2 d ++ 'T' :: pad2 h ++
    ':' :: pad2 mi ++ ':' :: pad2 sec ++ '.' :: pad3 ms ++ ['Z']) = _
  show isoParseChars [digitCh (y / 1000 % 10), digitCh (y / 100 % 10),
    digitCh (y / 10 % 10), digitCh (y % 10), '-', digitCh (mo / 10 % 10),
    digitCh (mo % 10), '-', digitCh (d / 10 % 10), digitCh (d % 10), 'T',
    digitCh (h / 10 % 10), digitCh (h % 10), ':', digitCh (mi / 10 % 10),
    digitCh (mi % 10), ':', digitCh (sec / 10 % 10), digitCh (sec % 10), '.',
    digitCh (ms / 100 % 10), digitCh (ms / 10 % 10), digitCh (ms % 10), 'Z'] = _
  rw [isoParseChars]
  rw [d4v_digitCh (m10 _) (m10 _) (m10 _) (m10 _), d2v_digitCh (m10 _) (m10 _),
    d2v_digitCh (m10 _) (m10 _)]
  have hdim : daysInMonth y mo ≤ 31 := by
    rw [daysInMonth]
    split
    · split <;> omega
    · split <;> omega
  have hdd1 : y / 100 / 10 = y / 1000 := by
    rw [Nat.div_div_eq_div_mul]
  have hdd2 : y / 10 / 10 = y / 100 := by
    rw [Nat.div_div_eq_div_mul]
  have hdd3 : ms / 10 / 10 = ms / 100 := by
    rw [Nat.div_div_eq_div_mul]
  have ey : y / 1000 % 10 * 1000 + y / 100 % 10 * 100 + y / 10 % 10 * 10 + y % 10
      = y := by omega
  have emo : mo / 10 % 10 * 10 + mo % 10 = mo := by omega
  have ed : d / 10 % 10 * 10 + d % 10 = d := by omega
  have eh : h / 10 % 10 * 10 + h % 10 = h := by omega
  have emi : mi / 10 % 10 * 10 + mi % 10 = mi := by omega
  have esec : sec / 10 % 10 * 10 + sec % 10 = sec := by omega
  have ems : ms / 100 % 10 * 100 + ms / 10 % 10 * 10 + ms % 10 = ms := by omega
  dsimp only
  rw [ey, emo, ed]
  have hdate : dateCompOk y mo d = true := by
    simp only [dateCompOk, Bool.and_eq_true, decide_eq_true_eq]
    exact ⟨⟨⟨⟨hy, hmo1⟩, hmo2⟩, hd1⟩, hd2⟩
  rw [if_pos hdate]
  rw [isoParseTime]
  rw [d2v_digitCh (m10 _) (m10 _), d2v_digitCh (m10 _) (m10 _)]
  dsimp only
  rw [eh, emi]
  rw [isoParseSec]
  rw [d2v_digitCh (m10 _) (m10 _)]
  dsimp only
  rw [esec]
  have hdig1 : isDigitCh (digitCh (ms / 100 % 10)) = true := digitCh_isDigit (m10 _)
  have hdig2 : isDigitCh (digitCh (ms / 10 % 10)) = true := digitCh_isDigit (m10 _)
  have hdig3 : isDigitCh (digitCh (ms % 10)) = true := digitCh_isDigit (m10 _)
  have hz : isDigitCh 'Z' = false := rfl
  simp only [List.takeWhile_cons, List.dropWhile_cons, hdig1, hdig2, hdig3, hz,
    List.takeWhile_nil, List.dropWhile_nil, if_true, Bool.false_eq_true, if_false]
  rw [if_neg (by simp)]
  rw [if_pos (show offsetOk ['Z'] = true from rfl)]
  rw [msVal]
  rw [charToDigit_digitCh (m10 (ms / 100)), charToDigit_digitCh (m10 (ms / 10)),
    charToDigit_digitCh (m10 ms)]
  simp only [Option.getD_some]
  rw [ems]
  rw [isoFinish, if_pos ⟨hh, hmi, hsec⟩]

theorem parseJsonStr_escaped (l : List Char) (ws : List Char) :
    parseJsonStr (l.flatMap jsonEscapeChar ++ '"' :: ws) = some (⟨l⟩, ws) := by
  induction l with
  | nil =>
    rw [List.flatMap_nil, List.nil_append, parseJsonStr.eq_def]
    simp
  | cons c cs ih =>
    rw [List.flatMap_cons]
    by_cases h1 : c = '"'
    · subst h1
      rw [show jsonEscapeChar '"' = ['\\', '"'] from rfl]
      simp only [List.cons_append, List.nil_append]
      rw [parseJsonStr.eq_def]
      simp [ih]
    · by_cases h2 : c = '\\'
      · subst h2
        rw [show jsonEscapeChar '\\' = ['\\', '\\'] from rfl]
        simp only [List.cons_append, List.nil_append]
        rw [parseJsonStr.eq_def]
        simp [ih]
      · rw [show jsonEscapeChar c = [c] from by simp [jsonEscapeChar, h1, h2]]
        simp only [List.cons_append, List.nil_append]
        rw [parseJsonStr.eq_def]
        simp [h1, h2, ih]

theorem strArrBody_length_ge (l : List String) : l.length ≤ (strArrBody l).length := by
  induction l with
  | nil => simp [strArrBody]
  | cons s t ih =>
    rw [strArrBody]
    by_cases hl : t = []
    · subst hl
      simp
    · simp only [hl, if_false, List.length_cons, List.length_append]
      simp only [List.length_cons] at ih ⊢
      omega

theorem fileArrBody_length_ge (l : List FileCellData) :
    l.length ≤ (fileArrBody l).length := by
  induction l with
  | nil => simp [fileArrBody]
  | cons f t ih =>
    rw [fileArrBody]
    by_cases hl : t = []
    · subst hl
      simp
    · simp only [hl, if_false, List.length_cons, List.length_append]
      simp only [List.length_cons] at ih ⊢
      omega

theorem parseStrArrElems_ok (l : List String) :
    ∀ (fuel : Nat) (ws : List Char), l ≠ [] → l.length ≤ fuel →
      parseStrArrElems fuel (strArrBody l ++ ws) = some (l, ws) := by
  induction l with
  | nil => intro fuel ws h _; exact absurd rfl h
  | cons s t ih =>
    intro fuel ws _ hf
    cases fuel with
    | zero => simp at hf
    | succ f =>
      rw [strArrBody]
      by_cases hl : t = []
      · subst hl
        simp only [if_pos rfl]
        simp only [List.cons_append, List.append_assoc, List.singleton_append]
        rw [parseStrArrElems]
        simp only [if_pos rfl]
        rw [parseJsonStr_escaped]
        simp
      · simp only [hl, if_false]
        simp only [List.cons_append, List.append_assoc]
        rw [parseStrArrElems]
        simp only [if_pos rfl]
        rw [parseJsonStr_escaped]
        have hrec := ih f ws hl (by simp only [List.length_cons] at hf; omega)
        simp [hrec]

theorem parseFileElems_ok (l : List FileCellData) :
    ∀ (fuel : Nat) (ws : List Char), l ≠ [] → l.length ≤ fuel →
      parseFileElems fuel (fileArrBody l ++ ws) = some (l, ws) := by
  induction l with
  | nil => intro fuel ws h _; exact absurd rfl h
  | cons s t ih =>
    intro fuel ws _ hf
    cases fuel with
    | zero => simp at hf
    | succ f =>
      rw [fileArrBody]
      by_cases hl : t = []
      · subst hl
        simp only [if_pos rfl]
        simp only [List.cons_append, List.append_assoc, List.singleton_append]
        rw [parseFileElems]
        rw [parseJsonStr_escaped]
        simp
      · simp only [hl, if_false]
        simp only [List.cons_append, List.append_assoc]
        rw [parseFileElems]
        rw [parseJsonStr_escaped]
        have hrec := ih f ws hl (by simp only [List.length_cons] at hf; omega)
        simp [hrec]

theorem jsonParseLite_strArr (l : List String) :
    jsonParseLite (jsonStringifyStrArr l) = some (.jarrS l) := by
  rw [jsonStringifyStrArr, jsonParseLite]
  show (match ('[' :: strArrBody l).dropWhile jsWsChar with
    | 't' :: 'r' :: 'u' :: 'e' :: rest =>
        if rest.all jsWsChar then some (JsonLite.jbool true) else none
    | 'f' :: 'a' :: 'l' :: 's' :: 'e' :: rest =>
        if rest.all jsWsChar then some (JsonLite.jbool false) else none
    | '[' :: rest =>
        match rest with
        | ']' :: r2 => if r2.all jsWsChar then some (JsonLite.jarrS []) else none
        | '"' :: _ =>
            match parseStrArrElems rest.length rest with
            | some (l, r2) =>
                if r2.all jsWsChar then some (JsonLite.jarrS l) else none
            | none => none
        | '\x7b' :: _ =>
            match parseFileElems rest.length rest with
            | some (l, r2) =>
                if r2.all jsWsChar then some (JsonLite.jarrF l) else none
            | none => none
        | _ => none
    | _ => none) = some (JsonLite.jarrS l)
  rw [dropWhile_ws_cons (by decide)]
  cases l with
  | nil => simp [strArrBody]
  | cons s t =>
    have hne : (s :: t) ≠ [] := by simp
    have hb : ∃ z, strArrBody (s :: t) = '"' :: z := by
      rw [strArrBody]
      exact ⟨_, rfl⟩
    obtain ⟨z, hz⟩ := hb
    rw [hz]
    have hok := parseStrArrElems_ok (s :: t) (z.length + 1) [] hne
      (by
        have h1 := strArrBody_length_ge (s :: t)
        rw [hz] at h1
        simp only [List.length_cons] at h1 ⊢
        omega)
    rw [List.append_nil] at hok
    rw [hz] at hok
    simp [hok]

theorem jsonParseLite_fileArr (l : List FileCellData) :
    jsonParseLite (jsonStringifyFileArr l) =
      some (if l = [] then .jarrS [] else .jarrF l) := by
  rw [jsonStringifyFileArr, jsonParseLite]
  show (match ('[' :: fileArrBody l).dropWhile jsWsChar with
    | 't' :: 'r' :: 'u' :: 'e' :: rest =>
        if rest.all jsWsChar then some (JsonLite.jbool true) else none
    | 'f' :: 'a' :: 'l' :: 's' :: 'e' :: rest =>
        if rest.all jsWsChar then some (JsonLite.jbool false) else none
    | '[' :: rest =>
        match rest with
        | ']' :: r2 => if r2.all jsWsChar then some (JsonLite.jarrS []) else none
        | '"' :: _ =>
            match parseStrArrElems rest.length rest with
            | some (l, r2) =>
                if r2.all jsWsChar then some (JsonLite.jarrS l) else none
            | none => none
        | '\x7b' :: _ =>
            match parseFileElems rest.length rest with
            | some (l, r2) =>
                if r2.all jsWsChar then some (JsonLite.jarrF l) else none
            | none => none
        | _ => none
    | _ => none) = some (if l = [] then JsonLite.jarrS [] else JsonLite.jarrF l)
  rw [dropWhile_ws_cons (by decide)]
  cases l with
  | nil => simp [fileArrBody]
  | cons s t =>
    have hne : (s :: t) ≠ [] := by simp
    have hb : ∃ z, fileArrBody (s :: t) = '\x7b' :: z := by
      rw [fileArrBody]
      exact ⟨_, rfl⟩
    obtain ⟨z, hz⟩ := hb
    rw [hz]
    have hok := parseFileElems_ok (s :: t) (z.length + 1) [] hne
      (by
        have h1 := fileArrBody_length_ge (s :: t)
        rw [hz] at h1
        simp only [List.length_cons] at h1 ⊢
        omega)
    rw [List.append_nil] at hok
    rw [hz] at hok
    simp [hok]

theorem headChar_cons {s : String} {c : Char} {rest : List Char}
    (h : s.data = c :: rest) : headChar s = some c := by
  rw [headChar, h]
  rfl

theorem headChar_nil {s : String} (h : s.data = []) : headChar s = none := by
  rw [headChar, h]
  rfl

theorem textJsonStep_cons {s : String} {c : Char} {rest : List Char}
    (h : s.data = c :: rest) :
    textJsonStep s = if textHeadSniff c then textJsonParsed s else .vStr s := by
  rw [textJsonStep, headChar_cons h]

theorem textJsonStep_nil {s : String} (h : s.data = []) :
    textJsonStep s = .vStr s := by
  rw [textJsonStep, headChar_nil h]

theorem textUntouched_cons {s : String} {c : Char} {rest : List Char}
    (h : s.data = c :: rest) :
    textUntouched s =
      ((!(isoLikeTest s) || (jsDateParse s).isNone) && textHeadOkChar s c) := by
  rw [textUntouched, headChar_cons h]

theorem find?_eq_self {s : String} {options : List String} (h : s ∈ options) :
    options.find? (fun o => o == s) = some s := by
  induction options with
  | nil => cases h
  | cons a as ih =>
    by_cases has : a = s
    · subst has
      rw [List.find?_cons_of_pos _ (by simp)]
    · have hmem : s ∈ as := by
        rcases List.mem_cons.mp h with h' | h'
        · exact absurd h'.symm has
        · exact h'
      rw [List.find?_cons_of_neg _ (by simp [has])]
      exact ih hmem

theorem matchSelectOption_self {s : String} {options : List String}
    (h : s ∈ options) : matchSelectOption s options = some s := by
  rw [matchSelectOption, find?_eq_self h]

theorem filterMap_matchSelf {l options : List String}
    (h : ∀ v ∈ l, v ∈ options) :
    l.filterMap (fun v => matchSelectOption v options) = l := by
  induction l with
  | nil => rfl
  | cons a as ih =>
    rw [List.filterMap_cons, matchSelectOption_self (h a (by simp))]
    rw [ih (fun v hv => h v (by simp [hv]))]

theorem mk_cons_ne_empty {c : Char} {l : List Char} : (⟨c :: l⟩ : String) ≠ "" := by
  intro h
  have := congrArg String.data h
  simp at this

theorem jsNumToString_ne_empty (d : JsDec) : jsNumToString d ≠ "" := by
  obtain ⟨m, e⟩ := d
  cases e with
  | zero =>
    show jsSign m ++ ⟨natDigits m.natAbs⟩ ≠ ""
    intro h
    have := congrArg String.data h
    rw [String.data_append] at this
    rcases List.append_eq_nil.mp this with ⟨_, h2⟩
    exact natDigits_ne_nil m.natAbs h2
  | succ e' =>
    intro h
    have := congrArg String.data h
    simp only [jsNumToString] at this
    rw [String.data_append, String.data_append, String.data_append] at this
    rcases List.append_eq_nil.mp this with ⟨h1, _⟩
    rcases List.append_eq_nil.mp h1 with ⟨_, h3⟩
    simp at h3

theorem isoFormat_ne_empty (t : JsDate) : isoFormat t ≠ "" := by
  show (⟨pad4 t.year ++ _⟩ : String) ≠ ""
  intro h
  have := congrArg String.data h
  simp [pad4] at this

theorem isAlphaCh_ne_brackets {c : Char} (h : isAlphaCh c = true) :
    ¬(c = '[' ∨ c = '\x7b') := by
  simp only [isAlphaCh, Bool.or_eq_true, Bool.and_eq_true, decide_eq_true_eq] at h
  have h1 : ('[').toNat = 91 := by decide
  have h2 : ('\x7b').toNat = 123 := by decide
  rintro (he | he) <;> subst he <;> omega

theorem isWordDashDot_ne_brackets {c : Char} (h : isWordDashDot c = true) :
    ¬(c = '[' ∨ c = '\x7b') := by
  simp only [isWordDashDot, isAlphaCh, isDigitCh, Bool.or_eq_true, Bool.and_eq_true,
    decide_eq_true_eq] at h
  have h1 : ('[').toNat = 91 := by decide
  have h2 : ('\x7b').toNat = 123 := by decide
  rintro (he | he) <;> subst he <;> omega

theorem jsUrlCanParse_head {s : String} (h : jsUrlCanParse s = true) :
    ∃ c rest, s.data = c :: rest ∧ isAlphaCh c = true := by
  rw [jsUrlCanParse] at h
  cases hd : s.data with
  | nil => rw [hd] at h; cases h
  | cons c rest =>
    rw [hd] at h
    simp only [Bool.and_eq_true] at h
    exact ⟨c, rest, rfl, h.1⟩

theorem domainRegexTest_head {s : String} (h : domainRegexTest s = true) :
    ∃ c rest, s.data = c :: rest ∧ isWordDashDot c = true := by
  rw [domainRegexTest, List.any_eq_true] at h
  obtain ⟨i, hi, hcond⟩ := h
  simp only [Bool.and_eq_true, decide_eq_true_eq] at hcond
  obtain ⟨⟨⟨hpos, hall⟩, _⟩, _⟩ := hcond
  cases hd : s.data with
  | nil =>
    rw [List.mem_range, hd] at hi
    simp at hi
  | cons c rest =>
    refine ⟨c, rest, rfl, ?_⟩
    rw [List.all_eq_true] at hall
    apply hall
    rw [hd]
    cases i with
    | zero => omega
    | succ i' => simp [List.take_cons]

theorem textJsonStep_untouched {s : String}
    (h : ∀ c rest, s.data = c :: rest → textHeadOkChar s c = true) :
    textJsonStep s = .vStr s := by
  cases hd : s.data with
  | nil => exact textJsonStep_nil hd
  | cons c rest =>
    rw [textJsonStep_cons hd]
    have hok := h c rest hd
    rw [textHeadOkChar] at hok
    by_cases h1 : c = '[' ∨ c = '\x7b'
    · rw [if_pos h1] at hok
      cases hok
    · rw [if_neg h1] at hok
      by_cases h2 : c = 't' ∨ c = 'f'
      · rw [if_pos h2] at hok
        simp only [Bool.and_eq_true, Bool.not_eq_true', beq_eq_false_iff_ne,
          ne_eq, Option.isNone_iff_eq_none] at hok
        have hsniff : textHeadSniff c = true := by
          simp only [textHeadSniff, Bool.or_eq_true, beq_iff_eq]
          tauto
        rw [if_pos hsniff, textJsonParsed, hok.1.1]
        rw [if_neg hok.1.2, if_neg hok.2]
      · have hsniff : textHeadSniff c = false := by
          simp only [textHeadSniff, Bool.or_eq_false_iff, beq_eq_false_iff_ne, ne_eq]
          refine ⟨⟨⟨?_, ?_⟩, ?_⟩, ?_⟩ <;> tauto
        rw [hsniff]
        simp

theorem textCoerce_untouched {s : String} (h : textUntouched s = true) :
    textCoerce s = .vStr s := by
  have hstep : textJsonStep s = .vStr s := by
    apply textJsonStep_untouched
    intro c rest hd
    rw [textUntouched_cons hd, Bool.and_eq_true] at h
    exact h.2
  rw [textCoerce]
  by_cases hs : s = ""
  · rw [if_pos hs, hs]
  · rw [if_neg hs]
    by_cases hil : isoLikeTest s = true
    · rw [if_pos hil]
      rw [textUntouched, Bool.and_eq_true] at h
      have hiso := h.1
      simp only [hil, Bool.not_true, Bool.false_or, Option.isNone_iff_eq_none] at hiso
      rw [hiso]
      exact hstep
    · rw [if_neg hil]
      exact hstep

/-- C3 (amended): for a cell whose value conforms to its column's
declared variant, serializing the cell and applying the column's paste
coercion to the serialized text reproduces the original value, for all
variants except `select`/`multi-select` with values outside the option
list (excluded by conformance) and except plain-text cells whose text the
default coercion rewrites (ISO-date-like text that parses as a valid
date, or text summarized by the JSON sniff: starting with `[` or `{`, or
reading as the JSON booleans / the words true/false). -/
theorem claim_C3 (variant : CellVariant) (options : List String)
    (v : CellValue) (hconf : conforms variant options v = true)
    (htext : variant = CellVariant.text →
      textUntouched (serializeCellValue variant v) = true) :
    pasteCoerce variant options (serializeCellValue variant v) = some v := by
  cases v with
  | vNull =>
    have h : variant = .number ∨ variant = .date := by
      have := hconf
      simp only [conforms, Bool.or_eq_true, beq_iff_eq] at this
      exact this
    rcases h with h | h <;> subst h <;> rfl
  | vStr s =>
    cases variant with
    | text =>
      have hser : serializeCellValue CellVariant.text (CellValue.vStr s) = s := rfl
      have hu := htext rfl
      rw [hser] at hu
      show some (textCoerce s) = some (CellValue.vStr s)
      rw [textCoerce_untouched hu]
    | select =>
      have hser : serializeCellValue CellVariant.select (CellValue.vStr s) = s := rfl
      rw [hser]
      by_cases hs : s = ""
      · subst hs
        rfl
      · have hmem : s ∈ options := by
          simp only [conforms, Bool.or_eq_true, beq_iff_eq, decide_eq_true_eq] at hconf
          tauto
        show (if s = "" then some (CellValue.vStr "")
          else match matchSelectOption s options with
            | some m => some (CellValue.vStr m)
            | none => none) = some (CellValue.vStr s)
        rw [if_neg hs, matchSelectOption_self hmem]
    | url =>
      have hser : serializeCellValue CellVariant.url (CellValue.vStr s) = s := rfl
      rw [hser]
      have hacc : jsUrlCanParse s = true ∨ domainRegexTest s = true := by
        simp only [conforms, Bool.or_eq_true] at hconf
        exact hconf
      have hhead : ∃ c rest, s.data = c :: rest ∧ ¬(c = '[' ∨ c = '\x7b') := by
        rcases hacc with h | h
        · obtain ⟨c, rest, hd, ha⟩ := jsUrlCanParse_head h
          exact ⟨c, rest, hd, isAlphaCh_ne_brackets ha⟩
        · obtain ⟨c, rest, hd, hw⟩ := domainRegexTest_head h
          exact ⟨c, rest, hd, isWordDashDot_ne_brackets hw⟩
      obtain ⟨c, rest, hd, hnotbr⟩ := hhead
      have hne : s ≠ "" := by
        intro he
        rw [he] at hd
        cases hd
      show (if s = "" then some (CellValue.vStr "")
        else match headChar s with
          | some c =>
              if c = '[' ∨ c = '\x7b' then none
              else if jsUrlCanParse s then some (CellValue.vStr s)
              else if domainRegexTest s then some (CellValue.vStr s)
              else none
          | none => none) = some (CellValue.vStr s)
      rw [if_neg hne, headChar_cons hd]
      show (if c = '[' ∨ c = '\x7b' then none
        else if jsUrlCanParse s then some (CellValue.vStr s)
        else if domainRegexTest s then some (CellValue.vStr s)
        else none) = some (CellValue.vStr s)
      rw [if_neg hnotbr]
      by_cases hu : jsUrlCanParse s = true
      · rw [if_pos hu]
      · rw [if_neg hu]
        rcases hacc with h | h
        · exact absurd h hu
        · rw [if_pos h]
    | number => simp [conforms] at hconf
    | checkbox => simp [conforms] at hconf
    | date => simp [conforms] at hconf
    | multiSelect => simp [conforms] at hconf
    | file => simp [conforms] at hconf
  | vNum d =>
    have h : variant = .number ∧ d.wf = true := by
      simp only [conforms, Bool.and_eq_true, beq_iff_eq] at hconf
      exact hconf
    obtain ⟨hv, hwf⟩ := h
    subst hv
    have hser : serializeCellValue CellVariant.number (CellValue.vNum d) =
        jsNumToString d := rfl
    rw [hser]
    show (if jsNumToString d = "" then some CellValue.vNull
      else match jsParseFloat (jsNumToString d) with
        | none => none
        | some d => some (CellValue.vNum d)) = some (CellValue.vNum d)
    rw [if_neg (jsNumToString_ne_empty d), jsNum_roundtrip d hwf]
  | vBool b =>
    have hv : variant = .checkbox := by
      simp only [conforms, beq_iff_eq] at hconf
      exact hconf
    subst hv
    cases b <;> rfl
  | vDate t =>
    have h : variant = .date ∧ t.wf = true := by
      simp only [conforms, Bool.and_eq_true, beq_iff_eq] at hconf
      exact hconf
    obtain ⟨hv, hwf⟩ := h
    subst hv
    have hser : serializeCellValue CellVariant.date (CellValue.vDate t) =
        isoFormat t := rfl
    rw [hser]
    show (if isoFormat t = "" then some CellValue.vNull
      else match jsDateParse (isoFormat t) with
        | none => none
        | some u => some (CellValue.vDate u)) = some (CellValue.vDate t)
    rw [if_neg (isoFormat_ne_empty t), jsDate_roundtrip t hwf]
  | vStrList l =>
    have h : variant = .multiSelect ∧ ∀ v ∈ l, v ∈ options := by
      simp only [conforms, Bool.and_eq_true, beq_iff_eq, List.all_eq_true,
        decide_eq_true_eq] at hconf
      exact hconf
    obtain ⟨hv, hall⟩ := h
    subst hv
    have hser : serializeCellValue CellVariant.multiSelect (CellValue.vStrList l) =
        jsonStringifyStrArr l := rfl
    rw [hser]
    show (let values : List String :=
        match jsonParseLite (jsonStringifyStrArr l) with
        | some (.jarrS l) => l
        | some (.jarrF _) => []
        | some (.jbool _) => []
        | none =>
            if jsonStringifyStrArr l = "" then []
            else ((jsonStringifyStrArr l).splitOn ",").map String.trim
      let validated := values.filterMap (fun v => matchSelectOption v options)
      if 0 < values.length ∧ validated.length = 0 then none
      else some (CellValue.vStrList validated)) = some (CellValue.vStrList l)
    rw [jsonParseLite_strArr]
    show (let validated := l.filterMap (fun v => matchSelectOption v options)
      if 0 < l.length ∧ validated.length = 0 then none
      else some (CellValue.vStrList validated)) = some (CellValue.vStrList l)
    rw [filterMap_matchSelf hall]
    show (if 0 < l.length ∧ l.length = 0 then none
      else some (CellValue.vStrList l)) = some (CellValue.vStrList l)
    rw [if_neg (by omega)]
  | vFiles l =>
    have hv : variant = .file := by
      simp only [conforms, beq_iff_eq] at hconf
      exact hconf
    subst hv
    have hser : serializeCellValue CellVariant.file (CellValue.vFiles l) =
        jsonStringifyFileArr l := rfl
    rw [hser]
    cases l with
    | nil => rfl
    | cons f fs =>
      have hne : jsonStringifyFileArr (f :: fs) ≠ "" := mk_cons_ne_empty
      show (if jsonStringifyFileArr (f :: fs) = "" then some (CellValue.vFiles [])
        else match jsonParseLite (jsonStringifyFileArr (f :: fs)) with
          | some (.jarrF l) =>
              let validFiles := l.filter getIsFileCellData
              if 0 < l.length ∧ validFiles.length = 0 then none
              else some (CellValue.vFiles validFiles)
          | some (.jarrS []) => some (CellValue.vFiles [])
          | some (.jarrS (_ :: _)) => none
          | some (.jbool _) => none
          | none => none) = some (CellValue.vFiles (f :: fs))
      rw [if_neg hne, jsonParseLite_fileArr]
      rw [if_neg (by simp : ¬(f :: fs = []))]
      show (let validFiles := (f :: fs).filter getIsFileCellData
        if 0 < (f :: fs).length ∧ validFiles.length = 0 then none
        else some (CellValue.vFiles validFiles)) = some (CellValue.vFiles (f :: fs))
      have hfil : (f :: fs).filter getIsFileCellData = f :: fs := by
        simp [getIsFileCellData]
      rw [hfil]
      rw [if_neg (by simp)]

/-- C3, as frozen, fails: the plain-text value `"true"` conforms to a
text column, serializes to `"true"`, but pastes back as `"Checked"` —
the default coercion rewrites boolean-looking text. -/
theorem claim_C3_counterexample :
    conforms CellVariant.text [] (CellValue.vStr "true") = true ∧
    serializeCellValue CellVariant.text (CellValue.vStr "true") = "true" ∧
    pasteCoerce CellVariant.text []
        (serializeCellValue CellVariant.text (CellValue.vStr "true")) =
      some (CellValue.vStr "Checked") ∧
    pasteCoerce CellVariant.text []
        (serializeCellValue CellVariant.text (CellValue.vStr "true")) ≠
      some (CellValue.vStr "true") := by
  refine ⟨rfl, rfl, ?_, ?_⟩
  · rfl
  · intro h
    have : CellValue.vStr "Checked" = CellValue.vStr "true" := by
      have h2 : pasteCoerce CellVariant.text []
          (serializeCellValue CellVariant.text (CellValue.vStr "true")) =
        some (CellValue.vStr "Checked") := rfl
      rw [h2] at h
      exact Option.some.inj h
    exact absurd (CellValue.vStr.inj this) (by decide)

/-- Witness for C3 (amended) at a concrete conforming cell. -/
theorem claim_C3_witness :
    conforms CellVariant.checkbox [] (CellValue.vBool true) = true ∧
    pasteCoerce CellVariant.checkbox []
        (serializeCellValue CellVariant.checkbox (CellValue.vBool true)) =
      some (CellValue.vBool true) :=
  ⟨rfl, claim_C3 CellVariant.checkbox [] (CellValue.vBool true) rfl
    (fun h => by cases h)⟩

theorem pasteCells_row (env : PasteEnv) (targetRow startCol : Nat) :
    ∀ (cells : List String) (j ci : Nat) (u : CellUpdate),
      (ci, some u) ∈ pasteCells env targetRow startCol cells j →
      u.rowIndex = targetRow := by
  intro cells
  induction cells with
  | nil =>
    intro j ci u h
    cases h
  | cons pv rest ih =>
    intro j ci u h
    rw [pasteCells] at h
    split at h
    · cases h
    · split at h
      · exact ih (j + 1) ci u h
      · rename_i cid hget
        split at h
        · exact ih (j + 1) ci u h
        · rcases List.mem_cons.mp h with he | hm
          · rw [Prod.mk.injEq] at he
            obtain ⟨v, _, hfv⟩ := Option.map_eq_some'.mp he.2.symm
            rw [← hfv]
          · exact ih (j + 1) ci u hm

theorem pasteRows_bounds (env : PasteEnv) (startRow startCol : Nat) :
    ∀ (data : List (List String)) (i r : Nat)
      (cells : List (Nat × Option CellUpdate)),
      (r, cells) ∈ pasteRows env startRow startCol data i →
      startRow ≤ r ∧ r < env.currentRowCount := by
  intro data
  induction data with
  | nil =>
    intro i r cells h
    cases h
  | cons row rest ih =>
    intro i r cells h
    rw [pasteRows] at h
    split at h
    · cases h
    · rename_i hlt
      rcases List.mem_cons.mp h with he | hm
      · rw [Prod.mk.injEq] at he
        omega
      · exact ih (i + 1) r cells hm

/-- Every row entry produced by the row loop carries exactly the cell
loop's output for that target row. -/
theorem pasteRows_cells (env : PasteEnv) (startRow startCol : Nat) :
    ∀ (data : List (List String)) (i r : Nat)
      (cells : List (Nat × Option CellUpdate)),
      (r, cells) ∈ pasteRows env startRow startCol data i →
      ∃ row, cells = pasteCells env r startCol row 0 := by
  intro data
  induction data with
  | nil =>
    intro i r cells h
    cases h
  | cons row rest ih =>
    intro i r cells h
    rw [pasteRows] at h
    split at h
    · cases h
    · rcases List.mem_cons.mp h with he | hm
      · rw [Prod.mk.injEq] at he
        refine ⟨row, ?_⟩
        rw [he.1]
        exact he.2
      · exact ih (i + 1) r cells hm

/-- `pasteOutcome` either pushes no updates or pushes exactly the
collected loop updates. -/
theorem pastedUpdates_outcome (env : PasteEnv) (fc : CellPosition)
    (st : PasteState) (expandRows : Bool) (ct : String)
    (pastedData : List (List String)) (sci : Int) :
    pastedUpdates (pasteOutcome env fc st expandRows ct pastedData sci) = [] ∨
    pastedUpdates (pasteOutcome env fc st expandRows ct pastedData sci) =
      collectUpdates (pasteRows env fc.rowIndex sci.toNat pastedData 0) := by
  rw [pasteOutcome]
  split
  · exact Or.inl rfl
  · dsimp only
    split
    · exact Or.inl rfl
    · exact Or.inr rfl

/-- `onCellsPaste` either pushes no updates or pushes the collected loop
updates of some parsed block anchored at the focused cell. -/
theorem pastedUpdates_onCellsPaste (env : PasteEnv) (st : PasteState)
    (expandRows : Bool) (clip : String) :
    pastedUpdates (onCellsPaste env st expandRows clip) = [] ∨
    ∃ fc pastedData, st.focusedCell = some fc ∧
      pastedUpdates (onCellsPaste env st expandRows clip) =
        collectUpdates (pasteRows env fc.rowIndex
          (jsIndexOf env.navigableColumnIds fc.columnId).toNat pastedData 0) := by
  rw [onCellsPaste]
  split
  · exact Or.inl rfl
  · cases hsf : st.focusedCell with
    | none => exact Or.inl rfl
    | some fc =>
      dsimp only
      split
      · exact Or.inl rfl
      · split
        · split
          · exact Or.inl rfl
          · rcases pastedUpdates_outcome env fc st expandRows _ _ _ with h | h
            · exact Or.inl h
            · exact Or.inr ⟨fc, _, rfl, h⟩
        · try dsimp only
          split
          · exact Or.inl rfl
          · split
            · exact Or.inl rfl
            · rcases pastedUpdates_outcome env fc st expandRows _ _ _ with h | h
              · exact Or.inl h
              · exact Or.inr ⟨fc, _, rfl, h⟩

/-- C1 (amended): when the focused anchor plus the pasted block would
extend past the last row and no automatic row-append collaborator is
configured, `onCellsPaste` does not no-op; it clips — every update it
pushes targets a row from the anchor row up to (but excluding) the
current row count, and the overflowing pasted rows are dropped. -/
theorem claim_C1 (env : PasteEnv) (st : PasteState) (expandRows : Bool)
    (clip : String) (fc : CellPosition)
    (hfc : st.focusedCell = some fc)
    (hnoadd : env.hasOnRowAdd = false)
    (hrc : env.currentRowCount = env.rowCount) :
    ∀ u ∈ pastedUpdates (onCellsPaste env st expandRows clip),
      fc.rowIndex ≤ u.rowIndex ∧ u.rowIndex < env.rowCount := by
  intro u hu
  rcases pastedUpdates_onCellsPaste env st expandRows clip with h | ⟨fc2, pd, hfc2, h⟩
  · rw [h] at hu
    cases hu
  · have hfceq : fc = fc2 := by
      rw [hfc] at hfc2
      exact Option.some.inj hfc2
    subst hfceq
    rw [h, collectUpdates, List.mem_flatMap] at hu
    obtain ⟨p, hp, hup⟩ := hu
    rw [List.mem_filterMap] at hup
    obtain ⟨x, hx, hxu⟩ := hup
    obtain ⟨r, cells⟩ := p
    obtain ⟨ci, ou⟩ := x
    simp only at hxu hx
    subst hxu
    obtain ⟨row, hcells⟩ := pasteRows_cells env fc.rowIndex _ _ _ _ _ hp
    rw [hcells] at hx
    have hrow := pasteCells_row env r _ row 0 ci u hx
    have hb := pasteRows_bounds env fc.rowIndex _ _ _ _ _ hp
    rw [hrc] at hb
    omega

/-- C1, as frozen, fails: with one row, no append collaborator, and a
two-row clipboard block anchored at the last row, the paste is not a
no-op — the in-bounds first row is pasted and delivered. -/
theorem claim_C1_counterexample :
    pasteEnvA.hasOnRowAdd = false ∧ pasteEnvA.hasOnRowsAdd = false ∧
    pasteEnvA.rowCount < 0 + 2 ∧
    deliveredUpdates (onCellsPaste pasteEnvA pasteStA false "x\ny") =
      [⟨0, "a", CellValue.vStr "x"⟩] ∧
    deliveredUpdates (onCellsPaste pasteEnvA pasteStA false "x\ny") ≠ [] := by
  refine ⟨rfl, rfl, by decide, rfl, ?_⟩
  intro h
  have h2 : deliveredUpdates (onCellsPaste pasteEnvA pasteStA false "x\ny") =
      [⟨0, "a", CellValue.vStr "x"⟩] := rfl
  rw [h] at h2
  cases h2

/-- Witness for C1 (amended) at the concrete clipped paste. -/
theorem claim_C1_witness :
    (0 : Nat) ≤ (CellUpdate.mk 0 "a" (CellValue.vStr "x")).rowIndex ∧
      (CellUpdate.mk 0 "a" (CellValue.vStr "x")).rowIndex < pasteEnvA.rowCount :=
  claim_C1 pasteEnvA pasteStA false "x\ny" ⟨0, "a"⟩ rfl rfl rfl
    (CellUpdate.mk 0 "a" (CellValue.vStr "x")) (by decide)

/-- C6: checkbox paste coercion maps the recognized truthy strings to
`true` and the falsy ones to `false`, case-insensitively; empty text
yields `false`; unrecognized text (e.g. `"maybe"`) is rejected by the
coercion, and in the paste pipeline such a cell is counted skipped and
excluded from the delivered update set. -/
theorem claim_C6 :
    pasteCoerce CellVariant.checkbox [] "true" = some (CellValue.vBool true) ∧
    pasteCoerce CellVariant.checkbox [] "1" = some (CellValue.vBool true) ∧
    pasteCoerce CellVariant.checkbox [] "yes" = some (CellValue.vBool true) ∧
    pasteCoerce CellVariant.checkbox [] "checked" = some (CellValue.vBool true) ∧
    pasteCoerce CellVariant.checkbox [] "TRUE" = some (CellValue.vBool true) ∧
    pasteCoerce CellVariant.checkbox [] "Yes" = some (CellValue.vBool true) ∧
    pasteCoerce CellVariant.checkbox [] "ChEcKeD" = some (CellValue.vBool true) ∧
    pasteCoerce CellVariant.checkbox [] "false" = some (CellValue.vBool false) ∧
    pasteCoerce CellVariant.checkbox [] "0" = some (CellValue.vBool false) ∧
    pasteCoerce CellVariant.checkbox [] "no" = some (CellValue.vBool false) ∧
    pasteCoerce CellVariant.checkbox [] "unchecked" = some (CellValue.vBool false) ∧
    pasteCoerce CellVariant.checkbox [] "FALSE" = some (CellValue.vBool false) ∧
    pasteCoerce CellVariant.checkbox [] "No" = some (CellValue.vBool false) ∧
    pasteCoerce CellVariant.checkbox [] "" = some (CellValue.vBool false) ∧
    pasteCoerce CellVariant.checkbox [] "maybe" = none ∧
    onCellsPaste pasteEnvC pasteStA false "maybe" =
      PasteResult.applied [] [] 0 1 none false false ∧
    deliveredUpdates (onCellsPaste pasteEnvC pasteStA false "maybe") = [] :=
  ⟨rfl, rfl, rfl, rfl, rfl, rfl, rfl, rfl, rfl, rfl, rfl, rfl, rfl, rfl, rfl,
    rfl, rfl⟩

/-- In-range JS indexing is positional access. -/
theorem jsGetStr_valid {l : List String} {c : Int} (h0 : 0 ≤ c)
    (hlt : c < (l.length : Int)) :
    ∃ h : c.toNat < l.length, jsGetStr l c = l.get ⟨c.toNat, h⟩ := by
  have h' : c.toNat < l.length := by omega
  exact ⟨h', by rw [jsGetStr, dif_pos ⟨h0, h'⟩]⟩

/-- If the empty string is not a column id, in-range indexing is truthy. -/
theorem jsGetStr_ne_empty {l : List String} (hne : "" ∉ l) {c : Int}
    (h0 : 0 ≤ c) (hlt : c < (l.length : Int)) : jsGetStr l c ≠ "" := by
  obtain ⟨h, heq⟩ := jsGetStr_valid h0 hlt
  rw [heq]
  intro hc
  exact hne (hc ▸ List.get_mem l c.toNat h)

/-- With distinct column ids, in-range JS indexing is injective. -/
theorem jsGetStr_inj {l : List String} (hnd : l.Nodup) {c₁ c₂ : Int}
    (h0₁ : 0 ≤ c₁) (hlt₁ : c₁ < (l.length : Int))
    (h0₂ : 0 ≤ c₂) (hlt₂ : c₂ < (l.length : Int))
    (heq : jsGetStr l c₁ = jsGetStr l c₂) : c₁ = c₂ := by
  obtain ⟨h1, e1⟩ := jsGetStr_valid h0₁ hlt₁
  obtain ⟨h2, e2⟩ := jsGetStr_valid h0₂ hlt₂
  rw [e1, e2] at heq
  have i1 := jsIndexOf_of_get hnd h1 rfl
  have i2 := jsIndexOf_of_get hnd h2 rfl
  rw [heq] at i1
  rw [i1] at i2
  omega

/-- C2: with both endpoint column ids present, distinct and truthy,
`selectRange` stores exactly (|Δrow|+1)×(|Δcol|+1) cell keys, each lying
inside the rectangle spanned by the endpoints, and records the raw
start/end pair as the range. -/
theorem claim_C2 (columnIds : List String) (st en : CellPosition)
    (isSel : Bool)
    (hs : st.columnId ∈ columnIds) (he : en.columnId ∈ columnIds)
    (hnd : columnIds.Nodup) (hne : "" ∉ columnIds) :
    (selectRange columnIds st en isSel).selectedCells.card =
      (Nat.dist st.rowIndex en.rowIndex + 1) *
        ((jsIndexOf columnIds st.columnId -
          jsIndexOf columnIds en.columnId).natAbs + 1) ∧
    (∀ key ∈ (selectRange columnIds st en isSel).selectedCells,
      ∃ r c, min st.rowIndex en.rowIndex ≤ r ∧
        r ≤ max st.rowIndex en.rowIndex ∧
        min (jsIndexOf columnIds st.columnId)
          (jsIndexOf columnIds en.columnId) ≤ c ∧
        c ≤ max (jsIndexOf columnIds st.columnId)
          (jsIndexOf columnIds en.columnId) ∧
        key = getCellKey r (jsGetStr columnIds c)) ∧
    (selectRange columnIds st en isSel).rangeStart = st ∧
    (selectRange columnIds st en isSel).rangeEnd = en := by
  have h0s := jsIndexOf_nonneg hs
  have h0e := jsIndexOf_nonneg he
  have hLs := jsIndexOf_lt_length hs
  have hLe := jsIndexOf_lt_length he
  have hcells : (selectRange columnIds st en isSel).selectedCells =
      (Finset.Icc (min st.rowIndex en.rowIndex)
        (max st.rowIndex en.rowIndex)).biUnion (fun r =>
        ((Finset.Icc
          (min (jsIndexOf columnIds st.columnId)
            (jsIndexOf columnIds en.columnId))
          (max (jsIndexOf columnIds st.columnId)
            (jsIndexOf columnIds en.columnId))).filter
          (fun c => jsGetStr columnIds c ≠ "")).image
          (fun c => getCellKey r (jsGetStr columnIds c))) := rfl
  have hfil : ((Finset.Icc
      (min (jsIndexOf columnIds st.columnId)
        (jsIndexOf columnIds en.columnId))
      (max (jsIndexOf columnIds st.columnId)
        (jsIndexOf columnIds en.columnId))).filter
      (fun c => jsGetStr columnIds c ≠ "")) =
      Finset.Icc
        (min (jsIndexOf columnIds st.columnId)
          (jsIndexOf columnIds en.columnId))
        (max (jsIndexOf columnIds st.columnId)
          (jsIndexOf columnIds en.columnId)) := by
    refine Finset.filter_true_of_mem ?_
    intro c hc
    have hb := Finset.mem_Icc.mp hc
    exact jsGetStr_ne_empty hne (by omega) (by omega)
  refine ⟨?_, ?_, rfl, rfl⟩
  · rw [hcells, hfil]
    rw [Finset.card_biUnion]
    · have himg : ∀ r : Nat,
          ((Finset.Icc
            (min (jsIndexOf columnIds st.columnId)
              (jsIndexOf columnIds en.columnId))
            (max (jsIndexOf columnIds st.columnId)
              (jsIndexOf columnIds en.columnId))).image
            (fun c => getCellKey r (jsGetStr columnIds c))).card =
          (Finset.Icc
            (min (jsIndexOf columnIds st.columnId)
              (jsIndexOf columnIds en.columnId))
            (max (jsIndexOf columnIds st.columnId)
              (jsIndexOf columnIds en.columnId))).card := by
        intro r
        refine Finset.card_image_of_injOn ?_
        intro c₁ hc₁ c₂ hc₂ heq
        have hb₁ := Finset.mem_Icc.mp (Finset.mem_coe.mp hc₁)
        have hb₂ := Finset.mem_Icc.mp (Finset.mem_coe.mp hc₂)
        exact jsGetStr_inj hnd (by omega) (by omega) (by omega) (by omega)
          (getCellKey_inj heq).2
      simp only [himg]
      rw [Finset.sum_const, smul_eq_mul, Nat.card_Icc, Int.card_Icc]
      have hA : max st.rowIndex en.rowIndex + 1 - min st.rowIndex en.rowIndex =
          Nat.dist st.rowIndex en.rowIndex + 1 := by
        simp only [Nat.dist]
        omega
      have hB : (max (jsIndexOf columnIds st.columnId)
          (jsIndexOf columnIds en.columnId) + 1 -
          min (jsIndexOf columnIds st.columnId)
            (jsIndexOf columnIds en.columnId)).toNat =
          (jsIndexOf columnIds st.columnId -
            jsIndexOf columnIds en.columnId).natAbs + 1 := by
        omega
      rw [hA, hB]
    · intro r₁ _ r₂ _ hr
      rw [Finset.disjoint_left]
      intro k hk₁ hk₂
      obtain ⟨c₁, _, e₁⟩ := Finset.mem_image.mp hk₁
      obtain ⟨c₂, _, e₂⟩ := Finset.mem_image.mp hk₂
      exact hr (getCellKey_inj (e₁.trans e₂.symm)).1
  · intro key hk
    rw [hcells] at hk
    obtain ⟨r, hr, hkr⟩ := Finset.mem_biUnion.mp hk
    obtain ⟨c, hc, hck⟩ := Finset.mem_image.mp hkr
    have hcb := Finset.mem_Icc.mp (Finset.mem_filter.mp hc).1
    have hrb := Finset.mem_Icc.mp hr
    exact ⟨r, c, hrb.1, hrb.2, hcb.1, hcb.2, hck.symm⟩

/-- Witness for C2 at a concrete 2×2 range. -/
theorem claim_C2_witness :
    (selectRange colsW cellW1 cellW2 false).selectedCells.card =
      (Nat.dist cellW1.rowIndex cellW2.rowIndex + 1) *
        ((jsIndexOf colsW cellW1.columnId -
          jsIndexOf colsW cellW2.columnId).natAbs + 1) ∧
    (∀ key ∈ (selectRange colsW cellW1 cellW2 false).selectedCells,
      ∃ r c, min cellW1.rowIndex cellW2.rowIndex ≤ r ∧
        r ≤ max cellW1.rowIndex cellW2.rowIndex ∧
        min (jsIndexOf colsW cellW1.columnId)
          (jsIndexOf colsW cellW2.columnId) ≤ c ∧
        c ≤ max (jsIndexOf colsW cellW1.columnId)
          (jsIndexOf colsW cellW2.columnId) ∧
        key = getCellKey r (jsGetStr colsW c)) ∧
    (selectRange colsW cellW1 cellW2 false).rangeStart = cellW1 ∧
    (selectRange colsW cellW1 cellW2 false).rangeEnd = cellW2 :=
  claim_C2 colsW cellW1 cellW2 false (by decide) (by decide) (by decide)
    (by decide)

/-- C9: from a valid focused row, every direction's target row stays in
`[0, rowCount-1]`; `down` from the last row and `up` from row 0 leave
the row unchanged. -/
theorem claim_C9 (env : NavEnv) (rowIndex : Nat) (columnId : String)
    (d : NavDirection) (hval : rowIndex < env.rowCount) :
    (0 ≤ (navigateTarget env rowIndex columnId d).1 ∧
      (navigateTarget env rowIndex columnId d).1 < (env.rowCount : Int)) ∧
    (rowIndex + 1 = env.rowCount →
      (navigateTarget env rowIndex columnId NavDirection.down).1 =
        (rowIndex : Int)) ∧
    (navigateTarget env 0 columnId NavDirection.up).1 = 0 := by
  refine ⟨?_, ?_, ?_⟩
  · cases d <;> simp only [navigateTarget] <;> omega
  · intro hlast
    simp only [navigateTarget]
    omega
  · simp only [navigateTarget]
    omega

/-- Witness for C9: pressing `down` on the last row of the witness grid
stays clamped and unchanged. -/
theorem claim_C9_witness :
    (0 ≤ (navigateTarget navEnvW 1 "a" NavDirection.down).1 ∧
      (navigateTarget navEnvW 1 "a" NavDirection.down).1 <
        (navEnvW.rowCount : Int)) ∧
    (1 + 1 = navEnvW.rowCount →
      (navigateTarget navEnvW 1 "a" NavDirection.down).1 = (1 : Nat)) ∧
    (navigateTarget navEnvW 0 "a" NavDirection.up).1 = 0 :=
  claim_C9 navEnvW 1 "a" NavDirection.down (by decide)

/-- C10: in left-to-right layout, `left` on the first navigable column
and `right` on the last are complete no-ops — the guarded tail of
`navigateCell` never runs, so focus, selection and scrolling are
untouched. -/
theorem claim_C10 (env : NavEnv) (rowIndex : Nat) (columnId : String)
    (hltr : env.rtl = false) :
    (jsIndexOf env.navigableColumnIds columnId = 0 →
      navigateCellEffect env rowIndex columnId NavDirection.left = none) ∧
    (jsIndexOf env.navigableColumnIds columnId =
        (env.navigableColumnIds.length : Int) - 1 →
      navigateCellEffect env rowIndex columnId NavDirection.right = none) := by
  constructor
  · intro hci
    rw [navigateCellEffect]
    simp only [navigateTarget, hltr, Bool.false_eq_true, if_false, navPrev, hci]
    simp
  · intro hci
    rw [navigateCellEffect]
    simp only [navigateTarget, hltr, Bool.false_eq_true, if_false, navNext, hci]
    simp

/-- Witness for C10: `left` on the first column of the witness grid is a
no-op. -/
theorem claim_C10_witness :
    navigateCellEffect navEnvW 0 "a" NavDirection.left = none :=
  (claim_C10 navEnvW 0 "a" rfl).1 (by decide)

/-- C7: `setState` under referential equality is a complete no-op;
otherwise it replaces exactly the addressed field, leaves the batching
flag alone, marks a notification pending, and schedules at most one
deferred notification — none at all while one is already pending. -/
theorem claim_C7 (m : StoreModel) (key : StateKey) (value : Nat) :
    (m.state key = value → setState m key value = m) ∧
    (m.state key ≠ value →
      (setState m key value).state key = value ∧
      (∀ k, k ≠ key → (setState m key value).state k = m.state k) ∧
      (setState m key value).isBatching = m.isBatching ∧
      (setState m key value).pendingNotification = true) ∧
    (setState m key value).queuedTasks ≤ m.queuedTasks + 1 ∧
    (m.pendingNotification = true →
      (setState m key value).queuedTasks = m.queuedTasks) := by
  refine ⟨?_, ?_, ?_, ?_⟩
  · intro h
    rw [setState, if_pos h]
  · intro h
    rw [setState, if_neg h]
    dsimp only
    refine ⟨?_, ?_, ?_, ?_⟩
    · split
      · simp
      · split <;> simp
    · intro k hk
      split
      · simp [hk]
      · split <;> simp [hk]
    · split
      · rfl
      · split <;> rfl
    · split
      · rfl
      · split
        · rfl
        · rename_i hp
          simp at hp
          exact hp
  · rw [setState]
    split
    · omega
    · dsimp only
      split
      · dsimp only
        omega
      · split <;> dsimp only <;> omega
  · intro hp
    rw [setState]
    split
    · rfl
    · dsimp only
      split
      · rfl
      · rw [if_neg (by simp [hp])]

/-- Witness for C7: an identical write is a no-op; a real write to
`matchIndex` lands there, leaves `searchQuery` alone, and queues at most
one notification. -/
theorem claim_C7_witness :
    setState storeW StateKey.searchQuery 0 = storeW ∧
    (setState storeW StateKey.matchIndex 7).state StateKey.matchIndex = 7 ∧
    (setState storeW StateKey.matchIndex 7).state StateKey.searchQuery = 0 ∧
    (setState storeW StateKey.matchIndex 7).queuedTasks ≤
      storeW.queuedTasks + 1 :=
  ⟨(claim_C7 storeW StateKey.searchQuery 0).1 rfl,
    ((claim_C7 storeW StateKey.matchIndex 7).2.1 (by decide)).1,
    ((claim_C7 storeW StateKey.matchIndex 7).2.1 (by decide)).2.1
      StateKey.searchQuery (by decide),
    (claim_C7 storeW StateKey.matchIndex 7).2.2.1⟩

/-- Characterization of one cell-scan step. -/
theorem searchCellMatch_eq {lq : String} {row : String → Option CellValue}
    {i : Nat} {cid : String} {p : CellPosition} :
    searchCellMatch lq row i cid = some p ↔
    ∃ v, row cid = some v ∧
      jsIncludes (jsToLower (jsToString v)) lq = true ∧ p = ⟨i, cid⟩ := by
  cases hrv : row cid with
  | none =>
    rw [searchCellMatch, hrv]
    simp
  | some v =>
    rw [searchCellMatch, hrv]
    dsimp only
    by_cases hinc : jsIncludes (jsToLower (jsToString v)) lq = true
    · rw [if_pos hinc]
      constructor
      · intro h
        exact ⟨v, rfl, hinc, (Option.some.inj h).symm⟩
      · rintro ⟨w, _, _, hp⟩
        rw [hp]
    · rw [if_neg hinc]
      constructor
      · intro h
        cases h
      · rintro ⟨w, hw, hincw, _⟩
        have hvw : v = w := Option.some.inj hw
        subst hvw
        exact absurd hincw hinc

/-- Matches produced while scanning row `i` carry row index `i`. -/
theorem searchCellMatch_row {lq : String} {row : String → Option CellValue}
    {i : Nat} {cid : String} {p : CellPosition}
    (h : searchCellMatch lq row i cid = some p) : p.rowIndex = i := by
  obtain ⟨v, _, _, hp⟩ := searchCellMatch_eq.mp h
  rw [hp]

/-- A flat scan over `List.range` whose row-`i` block only holds
positions with row index `i` lists its output with non-decreasing row
indices. -/
theorem pairwise_flatMap_range (f : Nat → List CellPosition)
    (n : Nat) (hf : ∀ i p, p ∈ f i → p.rowIndex = i) :
    List.Pairwise (fun p q => p.rowIndex ≤ q.rowIndex)
      ((List.range n).flatMap f) := by
  induction n with
  | zero => simp
  | succ m ih =>
    rw [List.range_succ, List.flatMap_append]
    rw [List.pairwise_append]
    refine ⟨ih, ?_, ?_⟩
    · simp only [List.flatMap_cons, List.flatMap_nil, List.append_nil]
      have hconst : ∀ l : List CellPosition, (∀ p ∈ l, p.rowIndex = m) →
          List.Pairwise (fun p q => p.rowIndex ≤ q.rowIndex) l := by
        intro l
        induction l with
        | nil => intro _; exact List.Pairwise.nil
        | cons a t iht =>
          intro h
          constructor
          · intro b hb
            rw [h a (by simp), h b (by simp [hb])]
          · exact iht (fun p hp => h p (by simp [hp]))
      exact hconst (f m) (fun p hp => hf m p hp)
    · intro a ha b hb
      obtain ⟨i, hi, hai⟩ := List.mem_flatMap.mp ha
      have h1 := hf i a hai
      have h2 : b.rowIndex = m := hf m b (by simpa using hb)
      have h3 : i < m := List.mem_range.mp hi
      omega

/-- C8: a blank query clears the matches and sets the index to −1; a
non-blank query records exactly the visible positions whose coerced
value contains it case-insensitively, in row-major (non-decreasing row)
order, with `matchIndex` 0 when a match exists and −1 otherwise; over
the scenario grid, searching `"foo"` finds exactly `(3, "name")`. -/
theorem claim_C8 (env : SearchEnv) (query : String) :
    (query.data.all jsWsChar = true → onSearch env query = ([], -1)) ∧
    (query.data.all jsWsChar = false →
      (∀ r cid, CellPosition.mk r cid ∈ (onSearch env query).1 ↔
        ∃ hr : r < env.rows.length, cid ∈ env.columnIds ∧
          ∃ v, env.rows.get ⟨r, hr⟩ cid = some v ∧
            jsIncludes (jsToLower (jsToString v)) (jsToLower query) = true) ∧
      List.Pairwise (fun p q => p.rowIndex ≤ q.rowIndex)
        (onSearch env query).1 ∧
      ((onSearch env query).1 = [] → (onSearch env query).2 = -1) ∧
      ((onSearch env query).1 ≠ [] → (onSearch env query).2 = 0)) ∧
    onSearch searchEnvW "foo" = ([CellPosition.mk 3 "name"], 0) := by
  refine ⟨?_, ?_, by rfl⟩
  · intro hb
    rw [onSearch, if_pos hb]
  · intro hb
    simp only [onSearch, hb, Bool.false_eq_true, if_false]
    refine ⟨?_, ?_, ?_, ?_⟩
    · intro r cid
      constructor
      · intro hm
        obtain ⟨i, hi, hpi⟩ := List.mem_flatMap.mp hm
        have hir : i < env.rows.length := List.mem_range.mp hi
        rw [List.get?_eq_get hir] at hpi
        obtain ⟨cid', hcid', hsc⟩ := List.mem_filterMap.mp hpi
        obtain ⟨v, hv, hinc, hp⟩ := searchCellMatch_eq.mp hsc
        rw [CellPosition.mk.injEq] at hp
        obtain ⟨hri, hcc⟩ := hp
        subst hri
        subst hcc
        exact ⟨hir, hcid', v, hv, hinc⟩
      · rintro ⟨hr, hcid, v, hv, hinc⟩
        apply List.mem_flatMap.mpr
        refine ⟨r, List.mem_range.mpr hr, ?_⟩
        rw [List.get?_eq_get hr]
        apply List.mem_filterMap.mpr
        exact ⟨cid, hcid, searchCellMatch_eq.mpr ⟨v, hv, hinc, rfl⟩⟩
    · apply pairwise_flatMap_range
      intro i p hp
      cases hg : env.rows.get? i with
      | none =>
        rw [hg] at hp
        cases hp
      | some row =>
        rw [hg] at hp
        obtain ⟨cid', _, hsc⟩ := List.mem_filterMap.mp hp
        exact searchCellMatch_row hsc
    · intro he
      rw [if_neg (by rw [he]; decide)]
    · intro he
      rw [if_pos (List.length_pos.mpr he)]

/-- Witness for C8: a whitespace query clears on the scenario grid, and
the `"foo"` scenario itself. -/
theorem claim_C8_witness :
    onSearch searchEnvW " " = ([], -1) ∧
    onSearch searchEnvW "foo" = ([CellPosition.mk 3 "name"], 0) :=
  ⟨(claim_C8 searchEnvW " ").1 (by decide), (claim_C8 searchEnvW "foo").2.2⟩

/-- C4 (amended): while `editingCell` is non-null, every key event other
than the search-toggle shortcut is ignored by the dispatcher — no
operation is invoked and no state is mutated. The search shortcut
ctrl/cmd+F is the exception: it fires even during editing. -/
theorem claim_C4 (env : DispatchEnv) (st : DispatchState) (e : KeyEvent)
    (hed : st.editingCell ≠ none)
    (hns : ¬(env.enableSearch = true ∧ (e.ctrlKey || e.metaKey) = true ∧
      e.shiftKey = false ∧ e.key = "f")) :
    onDataGridKeyDown env st e = [] := by
  rw [onDataGridKeyDown]
  rw [if_neg hns]
  rw [if_neg (fun h => hed h.2.2)]
  rw [if_pos hed]

/-- C4, as frozen, fails: with a cell in edit mode, ctrl+F is not
ignored — the dispatcher opens the search panel. -/
theorem claim_C4_counterexample :
    dispatchStX.editingCell ≠ none ∧
    onDataGridKeyDown dispatchEnvX dispatchStX ⟨"f", true, false, false, false⟩ =
      [DGAction.searchOpenChange true] ∧
    onDataGridKeyDown dispatchEnvX dispatchStX ⟨"f", true, false, false, false⟩ ≠
      [] := by
  refine ⟨by decide, rfl, by decide⟩

/-- Witness for C4 (amended): ctrl+C during editing invokes nothing. -/
theorem claim_C4_witness :
    onDataGridKeyDown dispatchEnvX dispatchStX ⟨"c", true, false, false, false⟩ =
      [] :=
  claim_C4 dispatchEnvX dispatchStX ⟨"c", true, false, false, false⟩
    (by decide) (by decide)

/-- A state without an editing cell satisfies the invariant. -/
theorem editFocusInv_none {st : GridState} (h : st.editingCell = none) :
    editFocusInv st = true := by
  rw [editFocusInv, h]

/-- Unfolding the invariant at a structure literal. -/
theorem editFocusInv_mk (f e : Option CellPosition) (so : Bool) (q : String)
    (ms : List CellPosition) (mi : Int) :
    editFocusInv ⟨f, e, so, q, ms, mi⟩ =
      (match e with
      | none => true
      | some p => f == some p) := rfl

/-- `onCellEditingStop` always leaves edit mode. -/
theorem onCellEditingStop_editing (st : GridState) (mv : Bool)
    (d : Option NavDirection) :
    (onCellEditingStop st mv d).editingCell = none := by
  rw [onCellEditingStop.eq_def]
  dsimp only
  split
  · rfl
  · cases d with
    | none => rfl
    | some dir =>
      cases he : st.editingCell with
      | none => rfl
      | some e => rfl

/-- C5 (amended): the invariant `editingCell ≠ null → focusedCell =
editingCell` is preserved by `focusCell`, `blurCell`,
`onCellEditingStart`, `onCellEditingStop`, the focus step of
`onScrollToRow`, opening the search panel, and `onSearch`; closing the
search panel preserves it provided no cell is being edited or no current
match exists. -/
theorem claim_C5 (st : GridState) (hinv : editFocusInv st = true) :
    (∀ r c, editFocusInv (focusCell st r c) = true) ∧
    editFocusInv (blurCell st) = true ∧
    (∀ ro r c, editFocusInv (onCellEditingStart st ro r c) = true) ∧
    (∀ mv d, editFocusInv (onCellEditingStop st mv d) = true) ∧
    (∀ b r c, editFocusInv (onScrollToRowStep st b r c) = true) ∧
    editFocusInv (onSearchOpenChange st true) = true ∧
    (∀ env q, editFocusInv (onSearchState st env q) = true) ∧
    (st.editingCell = none ∨
        (0 ≤ st.matchIndex → st.searchMatches.get? st.matchIndex.toNat = none) →
      editFocusInv (onSearchOpenChange st false) = true) := by
  refine ⟨?_, ?_, ?_, ?_, ?_, ?_, ?_, ?_⟩
  · intro r c
    rfl
  · rfl
  · intro ro r c
    rw [onCellEditingStart]
    split
    · exact hinv
    · rw [editFocusInv_mk]
      simp
  · intro mv d
    exact editFocusInv_none (onCellEditingStop_editing st mv d)
  · intro b r c
    rw [onScrollToRowStep]
    split
    · rfl
    · exact hinv
  · rw [onSearchOpenChange, if_pos rfl, editFocusInv_mk]
    rw [editFocusInv] at hinv
    exact hinv
  · intro env q
    rw [onSearchState]
    rw [editFocusInv_mk]
    rw [editFocusInv] at hinv
    exact hinv
  · intro hc
    rw [onSearchOpenChange]
    rw [if_neg (by decide)]
    dsimp only
    rw [editFocusInv_mk]
    cases he : st.editingCell with
    | none => rfl
    | some e =>
      dsimp only
      rcases hc with hen | hm
      · rw [he] at hen
        cases hen
      · have hcm : (if 0 ≤ st.matchIndex then
            st.searchMatches.get? st.matchIndex.toNat
          else none) = none := by
          split
          · rename_i hge
            exact hm hge
          · rfl
        rw [hcm]
        rw [editFocusInv, he] at hinv
        exact hinv

/-- C5, as frozen, fails: from a reachable state satisfying the
invariant, closing the search panel moves focus to the current match
while the edited cell stays put, breaking `editingCell = focusedCell`. -/
theorem claim_C5_counterexample :
    editFocusInv gridStX = true ∧
    gridStX.editingCell = some ⟨0, "a"⟩ ∧
    editFocusInv (onSearchOpenChange gridStX false) = false ∧
    (onSearchOpenChange gridStX false).editingCell = some ⟨0, "a"⟩ ∧
    (onSearchOpenChange gridStX false).focusedCell = some ⟨1, "a"⟩ := by
  refine ⟨rfl, rfl, rfl, rfl, rfl⟩

/-- Witness for C5 (amended) at a concrete editing state. -/
theorem claim_C5_witness :
    editFocusInv
      (focusCell ⟨some ⟨0, "a"⟩, some ⟨0, "a"⟩, false, "", [], -1⟩ 1 "a") =
      true :=
  (claim_C5 ⟨some ⟨0, "a"⟩, some ⟨0, "a"⟩, false, "", [], -1⟩ (by decide)).1 1 "a"

/-- The text paste branch rewrites every ISO-regex-passing text the host
date parser accepts — including bare and zoned date-times and date-only
strings — and `textUntouched` excludes exactly those; regex-passing text
the host rejects (out-of-range time) passes through unchanged. -/
theorem textCoerce_isoDate_rewrites :
    textUntouched "2024-01-15T10:30:00Z" = false ∧
    textCoerce "2024-01-15T10:30:00Z" =
      CellValue.vStr (toLocaleDateString ⟨2024, 1, 15, 10, 30, 0, 0⟩) ∧
    textUntouched "2024-01-15T10:30:00" = false ∧
    textCoerce "2024-01-15T10:30:00" =
      CellValue.vStr (toLocaleDateString ⟨2024, 1, 15, 10, 30, 0, 0⟩) ∧
    textUntouched "2024-01-15" = false ∧
    jsDateParse "2024-01-15T10:30:00.123456Z" =
      some ⟨2024, 1, 15, 10, 30, 0, 123⟩ ∧
    jsDateParse "2024-01-15T10:30:00+05:30" =
      some ⟨2024, 1, 15, 10, 30, 0, 0⟩ ∧
    jsDateParse "2024-01-15T24:00:00" = some ⟨2024, 1, 15, 24, 0, 0, 0⟩ ∧
    jsDateParse "2024-02-30" = none ∧
    jsDateParse "2024-01-15T10:30:60" = none ∧
    textUntouched "2024-01-15T99:99:99" = true ∧
    textCoerce "2024-01-15T99:99:99" =
      CellValue.vStr "2024-01-15T99:99:99" :=
  ⟨rfl, rfl, rfl, rfl, rfl, rfl, rfl, rfl, rfl, rfl, rfl, rfl⟩

end TableCn

